import Mathlib

/-!
Shallow embedding of `src/common/models.py` (four DQN model classes built on
an external tensor library).  Tensors are modelled as (rectangular) nested
lists; the model parameters that the external library would initialise
randomly are supplied through an explicit parameter source, so every theorem
quantifies over all possible parameter values.  Exact arithmetic over the
rationals stands in for floating point, except where the source genuinely
computes transcendental functions (softmax, sigmoid, tanh), which are
modelled over the reals.  Fallible tensor operations (shape mismatches,
missing-argument calls, unbound names) return `Except PyError`.
-/

namespace DQN

/-- Runtime errors that the Python code under `src/common/models.py` can
raise: `TypeError` (missing required argument / wrong argument type),
`NameError` (unbound identifier), `IndexError` (`input_dim[0]` on an empty
sequence), shape mismatches and other `RuntimeError`s from the tensor
library. -/
inductive PyError where
  | typeError (msg : String)
  | nameError (msg : String)
  | indexError
  | shapeError
  | valueError
deriving DecidableEq

section TensorOps

variable {α : Type} [LinearOrderedField α]

/-- Dot product of two lists (used for one output unit of a linear layer). -/
def dot (r x : List α) : α := (List.zipWith (fun a b => a * b) r x).sum

/-- The state of an `nn.Linear(inF, outF)` module: the declared number of
input features, the weight matrix (one row per output unit) and the bias
vector (one entry per output unit). -/
structure Linear (α : Type) where
  inF : Nat
  weight : List (List α)
  bias : List α
deriving DecidableEq

/-- Applying `nn.Linear` to a feature vector: checked against the declared
number of input features, then `weight ⬝ x + bias`. -/
def applyLinear (l : Linear α) (x : List α) : Except PyError (List α) :=
  if x.length = l.inF then
    .ok (List.zipWith (fun r b => dot r x + b) l.weight l.bias)
  else .error .shapeError

/-- Model of `nn.ReLU` on a scalar. -/
def relu (x : α) : α := max x 0

/-- Model of `nn.ReLU` on a vector. -/
def relu1 (x : List α) : List α := x.map relu

/-- Model of `nn.ReLU` on a rank-2 tensor. -/
def relu2 (x : List (List α)) : List (List α) := x.map relu1

/-- Model of `nn.ReLU` on a rank-3 tensor. -/
def relu3 (x : List (List (List α))) : List (List (List α)) := x.map relu2

/-- A `nn.Sequential` of linear layers with a `nn.ReLU` between consecutive
layers (the only fully-connected shape occurring in the source: `Linear`,
`ReLU`, `Linear`, `ReLU`, ..., `Linear`). -/
def applyFC : List (Linear α) → List α → Except PyError (List α)
  | [], x => .ok x
  | [l], x => applyLinear l x
  | l :: l' :: ls, x => do
      let y ← applyLinear l x
      applyFC (l' :: ls) (relu1 y)

/-- A fully-connected stack applied to a batched (rank-2) input: the linear
layers act on the last dimension. -/
def applyFC2 (fc : List (Linear α)) (x : List (List α)) :
    Except PyError (List (List α)) :=
  x.mapM (applyFC fc)

/-- A fully-connected stack applied to a rank-4 input (this happens in
`VanillaDQN.forward`, which feeds the raw convolutional input into `self.fc`):
the linear layers act on the last dimension. -/
def applyFC4 (fc : List (Linear α)) (x : List (List (List (List α)))) :
    Except PyError (List (List (List (List α)))) :=
  x.mapM (fun t3 => t3.mapM (fun t2 => t2.mapM (applyFC fc)))

/-- Elementwise vector addition with a shape check. -/
def addV (a b : List α) : Except PyError (List α) :=
  if a.length = b.length then .ok (List.zipWith (fun u v => u + v) a b)
  else .error .shapeError

/-- Elementwise vector product with a shape check. -/
def mulV (a b : List α) : Except PyError (List α) :=
  if a.length = b.length then .ok (List.zipWith (fun u v => u * v) a b)
  else .error .shapeError

end TensorOps

/-- A source of fresh parameter values, standing in for the random
initialisation the tensor library performs when a layer is constructed.
`w layer i j` is the weight of input `j` at output unit `i` of linear layer
number `layer`; `b layer i` is the corresponding bias; `cw layer o c i j` is
the convolution kernel weight of layer `layer`, output channel `o`, input
channel `c`, kernel position `(i, j)`. -/
structure ParamSrc (α : Type) where
  w : Nat → Nat → Nat → α
  b : Nat → Nat → α
  cw : Nat → Nat → Nat → Nat → Nat → α

/-- The all-zero parameter source. -/
def zeroSrc (α : Type) [LinearOrderedField α] : ParamSrc α :=
  ⟨fun _ _ _ => 0, fun _ _ => 0, fun _ _ _ _ _ => 0⟩

/-- Construct `nn.Linear(inD, outD)`, drawing its parameters from the source
at layer id `lid`. -/
def mkLinear {α : Type} (src : ParamSrc α) (lid inD outD : Nat) : Linear α :=
  ⟨inD,
   (List.range outD).map (fun i => (List.range inD).map (fun j => src.w lid i j)),
   (List.range outD).map (fun i => src.b lid i)⟩

section Chunking

variable {β : Type}

/-- Fuel-driven chunking: split a list into consecutive groups of `w`
elements.  The fuel (first argument) bounds the number of groups; callers
pass the length of the list, which is enough whenever `w ≠ 0`. -/
def chunkGo (w : Nat) : Nat → List β → List (List β)
  | 0, _ => []
  | _ + 1, [] => []
  | fuel + 1, a :: l => (a :: l).take w :: chunkGo w fuel ((a :: l).drop w)

/-- Split a list into consecutive groups of `w` elements (`w ≠ 0`). -/
def chunkBy (w : Nat) (l : List β) : List (List β) :=
  if w = 0 then [] else chunkGo w l.length l

end Chunking

/-- Exact-arithmetic model of `torch.arange(start, stop, step)` for a
positive step: the element count is `⌈(stop - start) / step⌉` and element `k`
is `start + k * step`. -/
def arangeQ (start stop step : ℚ) : List ℚ :=
  (List.range (⌈(stop - start) / step⌉.toNat)).map
    (fun k : Nat => start + (k : ℚ) * step)

section Conv

variable {α : Type} [LinearOrderedField α]

/-- The state of an `nn.Conv2d(inC, outC, kernel_size = k, stride = s)`
module. -/
structure ConvLayer (α : Type) where
  inC : Nat
  outC : Nat
  k : Nat
  s : Nat
  weight : List (List (List (List α)))
  bias : List α
deriving DecidableEq

/-- Construct `nn.Conv2d(inC, outC, k, s)` with parameters drawn from the
source at layer id `lid`. -/
def mkConv {γ : Type} (src : ParamSrc γ) (lid inC outC k s : Nat) : ConvLayer γ :=
  ⟨inC, outC, k, s,
   (List.range outC).map (fun o => (List.range inC).map (fun c =>
     (List.range k).map (fun i => (List.range k).map (fun j => src.cw lid o c i j)))),
   (List.range outC).map (fun o => src.b (lid + 100) o)⟩

/-- A rank-3 tensor of zeros with shape `(c, h, w)`. -/
def zeros3 (c h w : Nat) : List (List (List α)) :=
  List.replicate c (List.replicate h (List.replicate w 0))

/-- Indexed read of a rank-3 tensor (tensors are rectangular, so in-range
reads never hit the default). -/
def idx3 (t : List (List (List α))) (c i j : Nat) : α :=
  ((t.getD c []).getD i []).getD j 0

/-- Indexed read of a rank-4 tensor. -/
def idx4 (t : List (List (List (List α)))) (o c i j : Nat) : α :=
  (((t.getD o []).getD c []).getD i []).getD j 0

/-- Apply one `nn.Conv2d` layer to a single (un-batched) rank-3 input of
shape `(inC, h, w)`: cross-correlation with the declared stride, with the
shape checks the tensor library performs (channel count must match, the
kernel must fit inside the image). -/
def conv2dApply (L : ConvLayer α) (img : List (List (List α))) :
    Except PyError (List (List (List α))) :=
  let h := img.headI.length
  let w := img.headI.headI.length
  if img.length = L.inC ∧ L.k ≤ h ∧ L.k ≤ w ∧ L.s ≠ 0 then
    .ok ((List.range L.outC).map (fun o =>
      (List.range ((h - L.k) / L.s + 1)).map (fun i =>
        (List.range ((w - L.k) / L.s + 1)).map (fun j =>
          L.bias.getD o 0 +
            ((List.range L.inC).map (fun c =>
              ((List.range L.k).map (fun a =>
                ((List.range L.k).map (fun b =>
                  idx4 L.weight o c a b * idx3 img c (i * L.s + a) (j * L.s + b))).sum)).sum)).sum))))
  else .error .shapeError

/-- Apply the convolutional feature stack (each `Conv2d` is followed by a
`ReLU` in the `nn.Sequential` the source builds). -/
def convNetApply (net : List (ConvLayer α)) (img : List (List (List α))) :
    Except PyError (List (List (List α))) :=
  match net with
  | [] => .ok img
  | L :: rest => do
      let y ← conv2dApply L img
      convNetApply rest (relu3 y)

/-- Flatten a rank-3 tensor into a vector (row-major, as `view` does). -/
def flatten3 (t : List (List (List α))) : List α := t.flatten.flatten

/-- The shared `conv_features` method: apply `self.features` to the batched
rank-4 input and flatten each batch element (`feats.view(feats.size(0), -1)`). -/
def convFeatures (net : List (ConvLayer α)) (x : List (List (List (List α)))) :
    Except PyError (List (List α)) :=
  x.mapM (fun img => (convNetApply net img).map flatten3)

/-- The shared `conv_layer` method body: it builds
`Sequential(Conv2d(input_dim[0], 32, 8, 4), ReLU, Conv2d(32, 64, 4, 2), ReLU,
Conv2d(64, 64, 3, 1), ReLU)`; reading `input_dim[0]` of an empty sequence
raises `IndexError`. -/
def convLayerBuild {γ : Type} (src : ParamSrc γ) (inputDim : List Nat) :
    Except PyError (List (ConvLayer γ)) :=
  match inputDim with
  | [] => .error .indexError
  | c :: _ => .ok [mkConv src 10 c 32 8 4, mkConv src 11 32 64 4 2, mkConv src 12 64 64 3 1]

end Conv

/-! ### VanillaDQN -/

/-- The attributes a `VanillaDQN` instance carries.  `features` is `None`
when convolution is disabled. -/
structure VanillaDQN where
  inputDim : List Nat
  outputDim : Nat
  useConv : Bool
  features : Option (List (ConvLayer ℚ))
  fc : List (Linear ℚ)
deriving DecidableEq

/-- Model of `VanillaDQN.__init__(input_dim, output_dim, use_conv)`.  In order:
`self.features = self.conv_layer(self.input_dim) if self.use_conv else None`,
then `self.fc = Sequential(Linear(self.feature_size() if self.use_conv else
self.input_dim[0], 128), ReLU, Linear(128, 256), ReLU,
Linear(256, self.output_dim))`.  `feature_size` is declared as
`feature_size(self, input_dim)` but called with no argument, so the
convolutional branch raises `TypeError` before the instance is produced. -/
def vanillaInit (inputDim : List Nat) (outputDim : Nat) (useConv : Bool)
    (src : ParamSrc ℚ) : Except PyError VanillaDQN := do
  let features ← if useConv then (convLayerBuild src inputDim).map some
                 else .ok none
  let inF ← if useConv then
              Except.error (PyError.typeError
                "feature_size missing 1 required positional argument")
            else match inputDim with
              | [] => Except.error PyError.indexError
              | d0 :: _ => .ok d0
  .ok ⟨inputDim, outputDim, useConv, features,
       [mkLinear src 0 inF 128, mkLinear src 1 128 256,
        mkLinear src 2 256 outputDim]⟩

/-- A model input: a batched flat tensor of shape `(batch, d)` in
non-convolutional mode, or a batched image tensor of shape `(batch, c, h, w)`
in convolutional mode (the Python code dispatches on the runtime rank). -/
def DObs : Type := List (List ℚ) ⊕ List (List (List (List ℚ)))

/-- Model of `VanillaDQN.conv_features(state)` as called from `forward`:
`self.features(state)` (a `TypeError` when `features` is `None`, a shape
error from `Conv2d` on a rank-2 input) followed by per-sample flattening. -/
def vanillaConvFeats (m : VanillaDQN) (s : DObs) : Except PyError DObs :=
  match m.features, s with
  | some net, .inr img => (convFeatures net img).map .inl
  | none, _ => .error (.typeError "NoneType object is not callable")
  | some _, .inl _ => .error .shapeError

/-- Model of `qvals = self.fc(state)` for `VanillaDQN`: the head applied to the raw
input, over its last dimension. -/
def vanillaHead (m : VanillaDQN) (s : DObs) : Except PyError DObs :=
  match s with
  | .inl x => (applyFC2 m.fc x).map .inl
  | .inr x => (applyFC4 m.fc x).map .inr

/-- Model of `VanillaDQN.forward(state)`:
`feats = self.conv_features(state) if self.use_conv else state` followed by
`qvals = self.fc(state)` — note the head is applied to the raw `state`, not
to `feats`, whose value is discarded. -/
def vanillaForward (m : VanillaDQN) (s : DObs) : Except PyError DObs := do
  let _feats : DObs ← if m.useConv then vanillaConvFeats m s else .ok s
  vanillaHead m s

/-! ### DuelingDQN -/

/-- The `self.features` attribute of `DuelingDQN`: a convolutional stack in
convolutional mode, `Sequential(Linear(input_dim[0], 128), ReLU)` otherwise. -/
inductive DuelFeat where
  | conv (net : List (ConvLayer ℚ))
  | lin (l : Linear ℚ)
deriving DecidableEq

/-- The attributes a `DuelingDQN` instance carries. -/
structure DuelingDQN where
  inputDim : List Nat
  outputDim : Nat
  useConv : Bool
  features : DuelFeat
  valueStream : List (Linear ℚ)
  advStream : List (Linear ℚ)
deriving DecidableEq

/-- Model of `DuelingDQN.__init__(input_dim, output_dim, use_conv)`.  Unlike the
other three classes, it never calls `feature_size`, so construction succeeds
in both modes (the streams are built as `Sequential(Linear(128, 128), ReLU,
Linear(128, 1))` and `Sequential(Linear(128, 128), ReLU,
Linear(128, output_dim))` regardless of the feature size). -/
def duelingInit (inputDim : List Nat) (outputDim : Nat) (useConv : Bool)
    (src : ParamSrc ℚ) : Except PyError DuelingDQN := do
  let features ← if useConv then (convLayerBuild src inputDim).map DuelFeat.conv
                 else match inputDim with
                   | [] => Except.error PyError.indexError
                   | d0 :: _ => .ok (DuelFeat.lin (mkLinear src 0 d0 128))
  .ok ⟨inputDim, outputDim, useConv, features,
       [mkLinear src 1 128 128, mkLinear src 2 128 1],
       [mkLinear src 3 128 128, mkLinear src 4 128 outputDim]⟩

/-- Model of `feats = self.conv_features(state) if self.use_conv else
self.features(state)` for `DuelingDQN` (the non-convolutional `features` is
`Linear` followed by `ReLU`; mismatched mode/rank combinations raise in the
tensor library). -/
def duelingFeatures (m : DuelingDQN) (s : DObs) :
    Except PyError (List (List ℚ)) :=
  match m.useConv, m.features, s with
  | true, .conv net, .inr img => convFeatures net img
  | false, .lin l, .inl x => x.mapM (fun row => (applyLinear l row).map relu1)
  | _, _, _ => .error .shapeError

/-- Model of `advantages.mean()`: the mean over every element of the tensor (all
batch elements and all actions jointly). -/
def mean2 (m : List (List ℚ)) : ℚ :=
  (m.map List.sum).sum / ((m.map List.length).sum : ℕ)

/-- Model of `values + centred`: broadcasting addition of the `(batch, 1)` value
column against a `(batch, n)` matrix (rows of length 1 broadcast; equal
lengths add elementwise; anything else is a shape error). -/
def broadcastAdd (values m : List (List ℚ)) :
    Except PyError (List (List ℚ)) :=
  if values.length = m.length then
    (List.zipWith (fun vr ar =>
      match vr with
      | [v] => Except.ok (ar.map (fun a => v + a))
      | _ => if vr.length = ar.length
             then Except.ok (List.zipWith (fun u v => u + v) vr ar)
             else Except.error PyError.shapeError) values m).mapM id
  else .error .shapeError

/-- Model of `DuelingDQN.forward(state)`: features, the two streams, then
`qvals = values + (advantages - advantages.mean())`. -/
def duelingForward (m : DuelingDQN) (s : DObs) :
    Except PyError (List (List ℚ)) := do
  let feats ← duelingFeatures m s
  let values ← applyFC2 m.valueStream feats
  let advantages ← applyFC2 m.advStream feats
  let mu := mean2 advantages
  broadcastAdd values (advantages.map (fun row => row.map (fun a => a - mu)))

/-- Model of `DuelingDQN.feature_size(self, input_dim)`: this copy does declare its
`input_dim` parameter (and is called nowhere); its body references
`autograd`, a name the module never imports, so actually calling it would
raise `NameError`. -/
def duelingFeatureSize (_inputDim : List Nat) : Except PyError Nat :=
  .error (.nameError "name autograd is not defined")

/-! ### DistributionalDQN -/

/-- The attributes a `DistributionalDQN` instance carries.  `support` is
computed once in `__init__` as `torch.arange(Vmin, Vmax + delta_z, delta_z)`.
The class also stores `nn.Softmax(dim=1)` in `self.softmax`; that module has
no parameters and is modelled directly by the softmax functions below. -/
structure DistributionalDQN where
  inputDim : List Nat
  outputDim : Nat
  nAtoms : Nat
  useConv : Bool
  vMin : ℚ
  vMax : ℚ
  deltaZ : ℚ
  support : List ℚ
  features : Option (List (ConvLayer ℚ))
  fc : List (Linear ℚ)
deriving DecidableEq

/-- Model of `DistributionalDQN.__init__`.  The support grid is computed first; then
`self.features = self.conv_layer(self.input_dim) if self.use_conv else None`
— this class's `conv_layer` builds the stack but has no `return`, so the
attribute is `None` in both modes (reading `input_dim[0]` still raises
`IndexError` on an empty `input_dim`); then the head
`Sequential(Linear(..., 128), ReLU, Linear(128, 256), ReLU,
Linear(256, output_dim * n_atoms))`, whose first layer calls
`self.feature_size()` without its required argument in convolutional mode. -/
def distInit (inputDim : List Nat) (outputDim : Nat) (useConv : Bool)
    (nAtoms : Nat) (vMin vMax : ℚ) (src : ParamSrc ℚ) :
    Except PyError DistributionalDQN := do
  let deltaZ := (vMax - vMin) / ((nAtoms : ℚ) - 1)
  let support := arangeQ vMin (vMax + deltaZ) deltaZ
  let features ← if useConv then
      match inputDim with
      | [] => Except.error PyError.indexError
      | _ :: _ => .ok (none : Option (List (ConvLayer ℚ)))
    else .ok none
  let inF ← if useConv then
              Except.error (PyError.typeError
                "feature_size missing 1 required positional argument")
            else match inputDim with
              | [] => Except.error PyError.indexError
              | d0 :: _ => .ok d0
  .ok ⟨inputDim, outputDim, nAtoms, useConv, vMin, vMax, deltaZ, support,
       features,
       [mkLinear src 0 inF 128, mkLinear src 1 128 256,
        mkLinear src 2 256 (outputDim * nAtoms)]⟩

/-- Model of `tensor.view(batch_size, -1, n_atoms)` on a `(batch, L)` tensor: the
middle dimension is inferred, which requires a non-zero element count and
divisibility by `n_atoms`; each row is split into groups of `n_atoms`. -/
def view3 (x : List (List ℚ)) (nAtoms : Nat) :
    Except PyError (List (List (List ℚ))) :=
  if nAtoms = 0 ∨ x = [] then .error .valueError
  else x.mapM (fun row =>
    if row.length ≠ 0 ∧ row.length % nAtoms = 0
    then .ok (chunkBy nAtoms row) else .error .shapeError)

/-- The exponential of a rational logit, as a real number. -/
noncomputable def expQ (v : ℚ) : ℝ := Real.exp (v : ℝ)

/-- Model of `nn.Softmax(dim=1)` on one batch element of a rank-3 tensor, i.e. on an
`(actions, atoms)` matrix, normalising along the action axis: entry
`(a, z)` becomes `exp M[a][z] / Σ over a' of exp M[a'][z]`. -/
noncomputable def softmaxCols (M : List (List ℚ)) : List (List ℝ) :=
  let expM := M.map (fun row => row.map expQ)
  let colSums := (List.range M.headI.length).map
    (fun z => (expM.map (fun row => row.getD z 0)).sum)
  expM.map (fun row => List.zipWith (fun a b => a / b) row colSums)

/-- Model of `self.softmax(dist)` with `dist` of shape `(batch, actions, atoms)` and
`nn.Softmax(dim=1)`: the normalisation runs along dimension 1, the action
axis. -/
noncomputable def softmax3dim1 (t : List (List (List ℚ))) :
    List (List (List ℝ)) :=
  t.map softmaxCols

/-- Model of `torch.sum(probs * self.support, dim=2)`: the support broadcasts along
the last (atom) axis, which must match its length; then the atom axis is
summed out. -/
noncomputable def mulSupportSumDim2 (probs : List (List (List ℝ)))
    (support : List ℚ) : Except PyError (List (List ℝ)) :=
  probs.mapM (fun M => M.mapM (fun row =>
    if row.length = support.length
    then .ok ((List.zipWith (fun p v => p * (v : ℝ)) row support).sum)
    else .error .shapeError))

/-- Model of `DistributionalDQN.forward(state)` (state-passing form: the returned
model component records that the method assigns no attribute).  In
convolutional mode the body's first statement references `conv_features`
without its `self.` qualifier, an unbound name (`NameError`); otherwise
`feats = state` is computed and then ignored:
`dist = self.fc(state).view(batch_size, -1, self.n_atoms)`,
`probs = self.softmax(dist)`,
`Qvals = torch.sum(probs * self.support, dim=2)`, `return dist, Qvals` —
the returned first component is `dist`, the raw reshaped head output, not
`probs`. -/
noncomputable def distForward (m : DistributionalDQN) (state : List (List ℚ)) :
    Except PyError ((List (List (List ℚ)) × List (List ℝ)) × DistributionalDQN) := do
  let _batchSize := state.length
  let _feats ← if m.useConv
               then Except.error (PyError.nameError "name conv_features is not defined")
               else .ok state
  let fcOut ← applyFC2 m.fc state
  let dist ← view3 fcOut m.nAtoms
  let probs := softmax3dim1 dist
  let qvals ← mulSupportSumDim2 probs m.support
  .ok ((dist, qvals), m)

/-- Dynamic (Python-typed) values flowing through
`DistributionalDQN.get_q_vals`: tensors of the ranks that occur, and the
tuple that `forward` returns. -/
inductive PyObj where
  | t2Q (x : List (List ℚ))
  | t3Q (x : List (List (List ℚ)))
  | t2R (x : List (List ℝ))
  | t3R (x : List (List (List ℝ)))
  | tup (a b : PyObj)

/-- Model of `nn.Softmax(dim=1)` applied to a dynamic value, as `self.softmax(dist)`
does in `get_q_vals`.  On a rank-2 tensor `dim=1` normalises each row; on a
rank-3 tensor it normalises the action axis; a tuple is not a tensor and
raises `TypeError`. -/
noncomputable def softmaxModuleDim1 : PyObj → Except PyError PyObj
  | .t2Q x => .ok (.t2R (x.map (fun row =>
      let e := row.map expQ
      e.map (fun a => a / e.sum))))
  | .t3Q x => .ok (.t3R (softmax3dim1 x))
  | .t2R x => .ok (.t2R (x.map (fun row =>
      let e := row.map Real.exp
      e.map (fun a => a / e.sum))))
  | .t3R x => .ok (.t3R (x.map (fun (M : List (List ℝ)) =>
      let expM := M.map (fun row => row.map Real.exp)
      let colSums := (List.range M.headI.length).map
        (fun z => (expM.map (fun row => row.getD z 0)).sum)
      expM.map (fun row => List.zipWith (fun a b => a / b) row colSums))))
  | .tup _ _ => .error (.typeError "softmax expects a tensor, got a tuple")

/-- Model of `probs * self.support` on a dynamic value. -/
noncomputable def pyMulSupport (p : PyObj) (support : List ℚ) :
    Except PyError PyObj :=
  match p with
  | .t3R x => (x.mapM (fun (M : List (List ℝ)) => M.mapM (fun row =>
      if row.length = support.length
      then Except.ok (List.zipWith (fun a v => a * (v : ℝ)) row support)
      else Except.error PyError.shapeError))).map .t3R
  | .t2R x => (x.mapM (fun row =>
      if row.length = support.length
      then Except.ok (List.zipWith (fun a v => a * (v : ℝ)) row support)
      else Except.error PyError.shapeError)).map .t2R
  | _ => .error (.typeError "unsupported operand types")

/-- Model of `weights.sum(dim=2)` on a dynamic value: only a rank-3 tensor has a
dimension 2. -/
def pySumDim2 : PyObj → Except PyError PyObj
  | .t3R x => .ok (.t2R (x.map (fun M => M.map List.sum)))
  | _ => .error (.typeError "dim 2 out of range")

/-- Model of `DistributionalDQN.get_q_vals(state)`:
`dist = self.forward(state)` binds the whole `(dist, Qvals)` pair returned
by `forward` to the single name `dist`; `probs = self.softmax(dist)` then
applies the softmax module to that tuple, which is not a tensor; the
remaining statements (`weights = probs * self.support`,
`qvals = weights.sum(dim=2)`, `return dist, qvals`) are translated but can
never be reached with a non-error value. -/
noncomputable def distGetQVals (m : DistributionalDQN) (state : List (List ℚ)) :
    Except PyError ((PyObj × PyObj) × DistributionalDQN) := do
  let res ← distForward m state
  let dist := PyObj.tup (.t3Q res.1.1) (.t2R res.1.2)
  let probs ← softmaxModuleDim1 dist
  let weights ← pyMulSupport probs m.support
  let qvals ← pySumDim2 weights
  .ok ((dist, qvals), res.2)

/-! ### RecurrentDQN -/

/-- The parameters of `nn.GRUCell(gru_size, gru_size)`, split into the six
input/hidden projections for the reset gate `r`, update gate `z` and
candidate `n` (the library stores them stacked as `weight_ih`/`weight_hh`;
the split form is the same data). -/
structure GRUCellP where
  wIr : Linear ℝ
  wIz : Linear ℝ
  wIn : Linear ℝ
  wHr : Linear ℝ
  wHz : Linear ℝ
  wHn : Linear ℝ

/-- The logistic sigmoid. -/
noncomputable def sigmoidR (x : ℝ) : ℝ := 1 / (1 + Real.exp (-x))

/-- One `nn.GRUCell` step on a single batch element:
`r = σ(W_ir x + b_ir + W_hr h + b_hr)`, `z = σ(W_iz x + b_iz + W_hz h + b_hz)`,
`n = tanh(W_in x + b_in + r * (W_hn h + b_hn))`,
`h' = (1 - z) * n + z * h`. -/
noncomputable def gruCellVec (g : GRUCellP) (x h : List ℝ) :
    Except PyError (List ℝ) := do
  let rPre ← do addV (← applyLinear g.wIr x) (← applyLinear g.wHr h)
  let r := rPre.map sigmoidR
  let zPre ← do addV (← applyLinear g.wIz x) (← applyLinear g.wHz h)
  let z := zPre.map sigmoidR
  let nPre ← do addV (← applyLinear g.wIn x) (← mulV r (← applyLinear g.wHn h))
  let n := nPre.map Real.tanh
  let zn ← mulV (z.map (fun v => 1 - v)) n
  addV zn (← mulV z h)

/-- Model of `self.gru(x, h_in)` on a batch: the cell is applied to matching rows of
the input and hidden-state batches. -/
noncomputable def gruBatch (g : GRUCellP) (x h : List (List ℝ)) :
    Except PyError (List (List ℝ)) :=
  if x.length = h.length
  then (List.zipWith (fun xr hr => gruCellVec g xr hr) x h).mapM id
  else .error .shapeError

/-- Model of `hidden_state.reshape(-1, gru_size)`: flatten and regroup into rows of
`gru_size`; the element count must be non-zero and divisible. -/
def reshapeCols (t : List (List ℝ)) (cols : Nat) :
    Except PyError (List (List ℝ)) :=
  let flat := t.flatten
  if cols = 0 ∨ flat.length = 0 ∨ flat.length % cols ≠ 0 then .error .valueError
  else .ok (chunkBy cols flat)

/-- The attributes a `RecurrentDQN` instance carries. -/
structure RecurrentDQN where
  inputDim : List Nat
  gruSize : Nat
  outputDim : Nat
  useConv : Bool
  features : Option (List (ConvLayer ℝ))
  linear1 : Linear ℝ
  gru : GRUCellP
  linear2 : Linear ℝ

/-- Model of `RecurrentDQN.__init__(input_dim, gru_size, output_dim, use_conv)`.  In
convolutional mode the first statement already fails:
`self.features = self.conv_layer() if self.use_conv else None` calls
`conv_layer` (declared `conv_layer(self, input_dim)`) with no argument
(`TypeError`); the next line would also call `self.feature_size()` without
its required argument.  Otherwise `linear1 = Linear(input_dim[0], gru_size)`,
`gru = GRUCell(gru_size, gru_size)`, `linear2 = Linear(gru_size, output_dim)`. -/
def recurrentInit (inputDim : List Nat) (gruSize outputDim : Nat)
    (useConv : Bool) (src : ParamSrc ℝ) : Except PyError RecurrentDQN := do
  let features ← if useConv then
      Except.error (PyError.typeError
        "conv_layer missing 1 required positional argument")
    else .ok (none : Option (List (ConvLayer ℝ)))
  let inF ← if useConv then
      Except.error (PyError.typeError
        "feature_size missing 1 required positional argument")
    else match inputDim with
      | [] => Except.error PyError.indexError
      | d0 :: _ => .ok d0
  .ok ⟨inputDim, gruSize, outputDim, useConv, features,
       mkLinear src 0 inF gruSize,
       ⟨mkLinear src 20 gruSize gruSize, mkLinear src 21 gruSize gruSize,
        mkLinear src 22 gruSize gruSize, mkLinear src 23 gruSize gruSize,
        mkLinear src 24 gruSize gruSize, mkLinear src 25 gruSize gruSize⟩,
       mkLinear src 1 gruSize outputDim⟩

/-- Model of `RecurrentDQN.forward(state_input, hidden_state)` on a flat (rank-2)
batched input, in state-passing form — the model component of the result
shows that the method stores nothing on `self`:
`feats = self.conv_features(state_input) if self.use_conv else state_input`
(in convolutional mode `self.features` is `None` or receives an input of the
wrong rank, so this raises), `x = F.relu(self.linear1(feats))`,
`h_in = hidden_state.reshape(-1, self.gru_size)`, `h = self.gru(x, h_in)`,
`q = self.linear2(h)`, `return q, h`. -/
noncomputable def recurrentForward (m : RecurrentDQN)
    (state hidden : List (List ℝ)) :
    Except PyError ((List (List ℝ) × List (List ℝ)) × RecurrentDQN) := do
  let feats ← if m.useConv then
      match m.features with
      | none => Except.error (PyError.typeError "NoneType object is not callable")
      | some _ => Except.error PyError.shapeError
    else .ok state
  let x0 ← feats.mapM (applyLinear m.linear1)
  let x := relu2 x0
  let hIn ← reshapeCols hidden m.gruSize
  let h ← gruBatch m.gru x hIn
  let q ← h.mapM (applyLinear m.linear2)
  .ok ((q, h), m)

/-! ### Basic evaluation lemmas -/

section Lemmas

variable {α : Type} [LinearOrderedField α] {β γ : Type}

theorem range_map_const (n : Nat) (c : γ) :
    (List.range n).map (fun _ => c) = List.replicate n c := by
  induction n with
  | zero => simp
  | succ k ih => rw [List.range_succ, List.map_append, ih, List.replicate_succ']; simp

theorem zipWith_replicate_left {f : γ → β → α} (n : Nat) (c : γ) :
    ∀ (x : List β), List.zipWith f (List.replicate n c) x =
      (x.take n).map (f c) := by
  induction n with
  | zero => intro x; simp
  | succ k ih => intro x; cases x <;> simp [List.replicate_succ, ih]

theorem dot_replicate_zero (k : Nat) (x : List α) :
    dot (List.replicate k (0 : α)) x = 0 := by
  rw [dot, zipWith_replicate_left]
  induction (x.take k) with
  | nil => simp
  | cons a l ih => simpa using ih

theorem zipWith_replicate_both {f : γ → β → α} (n : Nat) (c : γ) (b : β) :
    List.zipWith f (List.replicate n c) (List.replicate n b) =
      List.replicate n (f c b) := by
  induction n with
  | zero => simp
  | succ k ih => simp [List.replicate_succ, ih]

theorem relu_zero : relu (0 : α) = 0 := by simp [relu]

theorem relu1_replicate_zero (k : Nat) :
    relu1 (List.replicate k (0 : α)) = List.replicate k 0 := by
  simp [relu1, relu]

theorem mkLinear_zero (lid i o : Nat) :
    mkLinear (zeroSrc α) lid i o =
      ⟨i, List.replicate o (List.replicate i 0), List.replicate o 0⟩ := by
  simp only [mkLinear, zeroSrc, range_map_const]

theorem applyLinear_zero {x : List α} (lid i o : Nat) (h : x.length = i) :
    applyLinear (mkLinear (zeroSrc α) lid i o) x = .ok (List.replicate o 0) := by
  rw [mkLinear_zero, applyLinear]
  simp only [h, if_pos rfl]
  rw [zipWith_replicate_both]
  simp [dot_replicate_zero]

theorem applyFC_zero3 {x : List α} (a b c d f g h : Nat)
    (hx : x.length = a) :
    applyFC [mkLinear (zeroSrc α) f a b, mkLinear (zeroSrc α) g b c,
             mkLinear (zeroSrc α) h c d] x = .ok (List.replicate d 0) := by
  simp only [applyFC, applyLinear_zero _ _ _ hx, Except.bind, bind,
    relu1_replicate_zero,
    applyLinear_zero _ b c (List.length_replicate b (0 : α)),
    applyLinear_zero _ c d (List.length_replicate c (0 : α))]

theorem applyFC_zero2 {x : List α} (a b c f g : Nat) (hx : x.length = a) :
    applyFC [mkLinear (zeroSrc α) f a b, mkLinear (zeroSrc α) g b c] x =
      .ok (List.replicate c 0) := by
  simp only [applyFC, applyLinear_zero _ _ _ hx, Except.bind, bind,
    relu1_replicate_zero,
    applyLinear_zero _ b c (List.length_replicate b (0 : α))]

end Lemmas

/-! ### Inversion helpers for `Except` and `List.mapM` -/

section Inv

variable {β γ : Type}

theorem ebind_ok (a : β) (f : β → Except PyError γ) :
    (Except.ok a >>= f) = f a := rfl

theorem ebind_err (e : PyError) (f : β → Except PyError γ) :
    ((Except.error e : Except PyError β) >>= f) = .error e := rfl

theorem emap_ok (a : β) (f : β → γ) :
    (Except.ok a : Except PyError β).map f = .ok (f a) := rfl

theorem emap_err (e : PyError) (f : β → γ) :
    (Except.error e : Except PyError β).map f = .error e := rfl

theorem mapMloop_nil (f : β → Except PyError γ) (acc : List γ) :
    List.mapM.loop f [] acc = .ok acc.reverse := rfl

theorem mapMloop_cons (f : β → Except PyError γ) (a : β) (l : List β)
    (acc : List γ) :
    List.mapM.loop f (a :: l) acc =
      f a >>= fun b => List.mapM.loop f l (b :: acc) := rfl

theorem bind_ok_inv {f : β → Except PyError γ} {e : Except PyError β} {c : γ}
    (h : (e >>= f) = .ok c) : ∃ b, e = .ok b ∧ f b = .ok c := by
  cases e with
  | error e0 => exact absurd h (by simp [ebind_err])
  | ok b0 => exact ⟨b0, rfl, by simpa [ebind_ok] using h⟩

theorem mapM_ok_mem {f : β → Except PyError γ} :
    ∀ {xs : List β} {ys : List γ}, xs.mapM f = .ok ys →
      ∀ y ∈ ys, ∃ x ∈ xs, f x = .ok y := by
  intro xs
  induction xs with
  | nil =>
      intro ys h y hy
      rw [List.mapM_nil] at h
      simp only [pure, Except.pure] at h
      cases h; simp at hy
  | cons a l ih =>
      intro ys h y hy
      rw [List.mapM_cons] at h
      obtain ⟨b, hb, h2⟩ := bind_ok_inv h
      obtain ⟨bs, hbs, h3⟩ := bind_ok_inv h2
      simp only [pure, Except.pure] at h3
      cases h3
      rcases List.mem_cons.mp hy with h | h
      · exact ⟨a, List.mem_cons_self a l, h ▸ hb⟩
      · obtain ⟨x, hx, hfx⟩ := ih hbs y h
        exact ⟨x, List.mem_cons_of_mem a hx, hfx⟩

theorem mapM_ok_length {f : β → Except PyError γ} :
    ∀ {xs : List β} {ys : List γ}, xs.mapM f = .ok ys →
      ys.length = xs.length := by
  intro xs
  induction xs with
  | nil =>
      intro ys h
      rw [List.mapM_nil] at h
      simp only [pure, Except.pure] at h
      cases h; rfl
  | cons a l ih =>
      intro ys h
      rw [List.mapM_cons] at h
      obtain ⟨b, _, h2⟩ := bind_ok_inv h
      obtain ⟨bs, hbs, h3⟩ := bind_ok_inv h2
      simp only [pure, Except.pure] at h3
      cases h3
      simp [ih hbs]

theorem mem_zipWith {f : β → γ → δ} :
    ∀ {a : List β} {b : List γ} {c : δ}, c ∈ List.zipWith f a b →
      ∃ x ∈ a, ∃ y ∈ b, c = f x y := by
  intro a
  induction a with
  | nil => intro b c h; simp at h
  | cons x l ih =>
      intro b c h
      cases b with
      | nil => simp at h
      | cons y m =>
          rcases List.mem_cons.mp h with h | h
          · exact ⟨x, List.mem_cons_self x l, y, List.mem_cons_self y m, h⟩
          · obtain ⟨u, hu, v, hv, he⟩ := ih h
            exact ⟨u, List.mem_cons_of_mem x hu, v, List.mem_cons_of_mem y hv, he⟩

theorem applyLinear_length {α : Type} [LinearOrderedField α]
    {l : Linear α} {x y : List α} (h : applyLinear l x = .ok y) :
    y.length = min l.weight.length l.bias.length := by
  rw [applyLinear] at h
  by_cases hx : x.length = l.inF
  · rw [if_pos hx] at h; cases h; simp
  · rw [if_neg hx] at h; cases h

end Inv

/-! ### Claim C5 -/

/-- C5: with convolution enabled (`use_conv=True`), constructing
`VanillaDQN`, `DistributionalDQN` or `RecurrentDQN` fails rather than
producing a model instance — their `__init__` reaches a call of the
feature-size probe (for `RecurrentDQN` already the `conv_layer()` call on
the preceding line) without its required `input_dim` argument — while
`DuelingDQN`, the fourth class, constructs successfully. -/
theorem conv_mode_construction_fails_in_three_classes :
    (∀ (d : List Nat) (o : Nat) (src : ParamSrc ℚ),
       ∃ e, vanillaInit d o true src = .error e) ∧
    (∀ (d : List Nat) (o n : Nat) (vmin vmax : ℚ) (src : ParamSrc ℚ),
       ∃ e, distInit d o true n vmin vmax src = .error e) ∧
    (∀ (d : List Nat) (g o : Nat) (src : ParamSrc ℝ),
       ∃ e, recurrentInit d g o true src = .error e) ∧
    (∀ (d0 : Nat) (dr : List Nat) (o : Nat) (src : ParamSrc ℚ),
       ∃ m, duelingInit (d0 :: dr) o true src = .ok m) := by
  refine ⟨fun d o src => ?_, fun d o n vmin vmax src => ?_,
          fun d g o src => ?_, fun d0 dr o src => ?_⟩
  · rcases d with _ | ⟨d0, dr⟩ <;> exact ⟨_, rfl⟩
  · rcases d with _ | ⟨d0, dr⟩ <;> exact ⟨_, rfl⟩
  · exact ⟨_, rfl⟩
  · exact ⟨_, rfl⟩

/-! ### Claim C10 -/

theorem distGetQVals_error (m : DistributionalDQN) (s : List (List ℚ)) :
    ∃ e, distGetQVals m s = .error e := by
  cases h : distForward m s with
  | error e =>
      exact ⟨e, by simp only [distGetQVals, h, ebind_err]⟩
  | ok res =>
      refine ⟨.typeError "softmax expects a tensor, got a tuple", ?_⟩
      simp only [distGetQVals, h, ebind_ok, softmaxModuleDim1, ebind_err]

/-- C10: `DistributionalDQN.get_q_vals` fails on every input: it binds the
pair returned by `forward` to the single name `dist` and then applies the
softmax module to that pair, so it never produces the `(dist, qvals)` value
its final `return` suggests. -/
theorem get_q_vals_always_fails :
    ∀ (m : DistributionalDQN) (state : List (List ℚ)),
      ∃ e, distGetQVals m state = .error e :=
  distGetQVals_error

/-! ### Claim C8 -/

/-- C8: whenever `RecurrentDQN.forward(state, hidden_state)` returns, it
returns the pair of the action-values (computed by `linear2` from the
updated hidden state) and the updated hidden state produced by the GRU cell
from the caller-supplied hidden state, and the model's attributes are left
exactly as they were — the hidden state is never stored on the model. -/
theorem recurrent_forward_pair_and_frame :
    ∀ (m : RecurrentDQN) (s h : List (List ℝ))
      (out : (List (List ℝ) × List (List ℝ)) × RecurrentDQN),
      recurrentForward m s h = .ok out →
      out.2 = m ∧ m.useConv = false ∧
      ∃ x0 hIn,
        s.mapM (applyLinear m.linear1) = .ok x0 ∧
        reshapeCols h m.gruSize = .ok hIn ∧
        gruBatch m.gru (relu2 x0) hIn = .ok out.1.2 ∧
        out.1.2.mapM (applyLinear m.linear2) = .ok out.1.1 := by
  intro m s h out hf
  rw [recurrentForward] at hf
  cases hc : m.useConv with
  | true =>
      rw [hc] at hf
      cases hm : m.features with
      | none => rw [hm] at hf; simp [ebind_err] at hf
      | some net => rw [hm] at hf; simp [ebind_err] at hf
  | false =>
      rw [hc, if_neg (by simp)] at hf
      rw [ebind_ok] at hf
      obtain ⟨x0, hx0, hf⟩ := bind_ok_inv hf
      obtain ⟨hIn, hIn_eq, hf⟩ := bind_ok_inv hf
      obtain ⟨h2, hh2, hf⟩ := bind_ok_inv hf
      obtain ⟨q, hq, hf⟩ := bind_ok_inv hf
      cases hf
      exact ⟨rfl, rfl, x0, hIn, hx0, hIn_eq, hh2, hq⟩

/-- A one-unit, all-zero real linear layer, used to build small concrete
model instances. -/
def linR0 : Linear ℝ := ⟨1, [[0]], [0]⟩

/-- A GRU cell whose six projections are all `linR0`. -/
def gru0 : GRUCellP := ⟨linR0, linR0, linR0, linR0, linR0, linR0⟩

/-- A small concrete recurrent model record. -/
def mC8 : RecurrentDQN := ⟨[1], 1, 1, false, none, linR0, gru0, linR0⟩

theorem applyLinear_linR0 : applyLinear linR0 [(0 : ℝ)] = .ok [0] := by
  simp [applyLinear, linR0, dot]

theorem sigmoidR_zero : sigmoidR 0 = 1 / 2 := by
  rw [sigmoidR, neg_zero, Real.exp_zero]; norm_num

theorem gruCellVec_gru0_eval : gruCellVec gru0 [(0 : ℝ)] [0] = .ok [0] := by
  rw [gruCellVec]
  simp only [gru0, applyLinear_linR0, ebind_ok, addV, mulV, List.length,
    List.zipWith, if_pos rfl, List.map]
  norm_num [sigmoidR_zero, Real.tanh_zero, ebind_ok]

theorem recurrentForward_mC8_eval :
    recurrentForward mC8 [[(0 : ℝ)]] [[0]] = .ok (([[0]], [[0]]), mC8) := by
  rw [recurrentForward]
  simp only [mC8, Bool.false_eq_true, if_false, ebind_ok, List.mapM_cons,
    List.mapM_nil, mapMloop_cons, mapMloop_nil, applyLinear_linR0, pure,
    Except.pure, relu2, relu1, relu, List.map, List.reverse_nil,
    List.reverse_cons, List.nil_append]
  norm_num [reshapeCols, chunkBy, chunkGo, gruBatch, gruCellVec_gru0_eval,
    ebind_ok, mapMloop_cons, mapMloop_nil, List.mapM_cons, List.mapM_nil,
    pure, Except.pure, applyLinear_linR0, max_self]

/-- Witness for C8 at a concrete model, state and hidden state. -/
theorem recurrent_forward_pair_and_frame_witness :
    (([[(0 : ℝ)]], [[(0 : ℝ)]]), mC8).2 = mC8 ∧ mC8.useConv = false ∧
    ∃ x0 hIn,
      [[(0 : ℝ)]].mapM (applyLinear mC8.linear1) = .ok x0 ∧
      reshapeCols [[(0 : ℝ)]] mC8.gruSize = .ok hIn ∧
      gruBatch mC8.gru (relu2 x0) hIn = .ok (([[(0 : ℝ)]], [[(0 : ℝ)]]), mC8).1.2 ∧
      (([[(0 : ℝ)]], [[(0 : ℝ)]]), mC8).1.2.mapM (applyLinear mC8.linear2) =
        .ok (([[(0 : ℝ)]], [[(0 : ℝ)]]), mC8).1.1 :=
  recurrent_forward_pair_and_frame mC8 [[0]] [[0]] (([[0]], [[0]]), mC8)
    recurrentForward_mC8_eval

/-! ### Claim C2 -/

/-- Decomposition of a successful `DuelingDQN.forward` call into its
constituent steps. -/
theorem duelingForward_decomp :
    ∀ (m : DuelingDQN) (s : DObs) (q : List (List ℚ)),
      duelingForward m s = .ok q →
      ∃ feats v a,
        duelingFeatures m s = .ok feats ∧
        applyFC2 m.valueStream feats = .ok v ∧
        applyFC2 m.advStream feats = .ok a ∧
        broadcastAdd v (a.map (fun row => row.map (fun x => x - mean2 a))) =
          .ok q := by
  intro m s q hf
  rw [duelingForward] at hf
  obtain ⟨feats, hfe, hf⟩ := bind_ok_inv hf
  obtain ⟨v, hv, hf⟩ := bind_ok_inv hf
  obtain ⟨a, ha, hf⟩ := bind_ok_inv hf
  exact ⟨feats, v, a, hfe, hv, ha, hf⟩

/-- C2: whenever `DuelingDQN.forward(state)` returns, its result is exactly
`values + (advantages - advantages.mean())` where `values` and `advantages`
are the outputs of the value stream and the advantage stream applied to the
features extracted from that state. -/
theorem dueling_forward_formula :
    ∀ (m : DuelingDQN) (s : DObs) (q : List (List ℚ)),
      duelingForward m s = .ok q →
      ∃ feats v a,
        duelingFeatures m s = .ok feats ∧
        applyFC2 m.valueStream feats = .ok v ∧
        applyFC2 m.advStream feats = .ok a ∧
        broadcastAdd v (a.map (fun row => row.map (fun x => x - mean2 a))) =
          .ok q :=
  duelingForward_decomp

/-- A one-unit, all-zero rational linear layer. -/
def linQ0 : Linear ℚ := ⟨1, [[0]], [0]⟩

/-- A small concrete dueling model record (non-convolutional). -/
def mC2 : DuelingDQN := ⟨[1], 1, false, .lin linQ0, [linQ0], [linQ0]⟩

theorem applyLinear_linQ0 : applyLinear linQ0 [(0 : ℚ)] = .ok [0] := by
  simp [applyLinear, linQ0, dot]

theorem duelingForward_mC2_eval :
    duelingForward mC2 (.inl [[(0 : ℚ)]]) = .ok [[0]] := by
  rw [duelingForward]
  simp only [mC2, duelingFeatures, List.mapM_cons, List.mapM_nil,
    mapMloop_cons, mapMloop_nil, applyLinear_linQ0, pure, Except.pure,
    ebind_ok, emap_ok, relu1, relu, List.map, applyFC2, applyFC]
  norm_num [applyLinear_linQ0, List.mapM_cons, List.mapM_nil, mapMloop_cons,
    mapMloop_nil, pure, Except.pure, ebind_ok, mean2, broadcastAdd,
    List.zipWith, max_self]

/-- Witness for C2 at a concrete model and state. -/
theorem dueling_forward_formula_witness :
    ∃ feats v a,
      duelingFeatures mC2 (.inl [[(0 : ℚ)]]) = .ok feats ∧
      applyFC2 mC2.valueStream feats = .ok v ∧
      applyFC2 mC2.advStream feats = .ok a ∧
      broadcastAdd v (a.map (fun row => row.map (fun x => x - mean2 a))) =
        .ok [[(0 : ℚ)]] :=
  dueling_forward_formula mC2 (.inl [[0]]) [[0]] duelingForward_mC2_eval

/-! ### Claim C3 -/

/-- C3: in convolutional mode, `VanillaDQN.forward` feeds the raw input
`state` — not the extracted features — into the fully-connected head: every
successful result equals `self.fc(state)`, and the result is unchanged if
the convolutional feature extractor is replaced by any other (the extractor
is computed, and can therefore fail, but its value is discarded). -/
theorem vanilla_conv_forward_ignores_features :
    (∀ (m : VanillaDQN) (img : List (List (List (List ℚ)))) (q : DObs),
       m.useConv = true → vanillaForward m (.inr img) = .ok q →
       (applyFC4 m.fc img).map Sum.inr = .ok q) ∧
    (∀ (m : VanillaDQN) (f2 : Option (List (ConvLayer ℚ)))
       (img : List (List (List (List ℚ)))) (q1 q2 : DObs),
       m.useConv = true →
       vanillaForward m (.inr img) = .ok q1 →
       vanillaForward ⟨m.inputDim, m.outputDim, m.useConv, f2, m.fc⟩ (.inr img) = .ok q2 →
       q1 = q2) := by
  have main : ∀ (m : VanillaDQN) (img : List (List (List (List ℚ)))) (q : DObs),
      m.useConv = true → vanillaForward m (.inr img) = .ok q →
      (applyFC4 m.fc img).map Sum.inr = .ok q := by
    intro m img q hc hf
    rw [vanillaForward] at hf
    simp only [hc, if_true] at hf
    obtain ⟨f, _, hf⟩ := bind_ok_inv hf
    rw [vanillaHead] at hf
    exact hf
  refine ⟨main, fun m f2 img q1 q2 hc h1 h2 => ?_⟩
  have e1 := main m img q1 hc h1
  have e2 := main ⟨m.inputDim, m.outputDim, m.useConv, f2, m.fc⟩ img q2 hc h2
  rw [e1] at e2
  cases e2
  rfl

/-- A trivial one-channel, one-pixel, all-zero convolution layer. -/
def convL0 : ConvLayer ℚ := ⟨1, 1, 1, 1, [[[[0]]]], [0]⟩

/-- A small concrete vanilla model record in convolutional mode. -/
def mC3 : VanillaDQN := ⟨[1, 1, 1], 1, true, some [convL0], [linQ0]⟩

theorem conv2dApply_convL0_eval :
    conv2dApply convL0 [[[(0 : ℚ)]]] = .ok [[[0]]] := by
  rw [conv2dApply]
  norm_num [convL0, idx3, idx4, List.range_succ]

theorem vanillaHead_mC3_eval :
    vanillaHead mC3 (.inr [[[[(0 : ℚ)]]]]) = .ok (.inr [[[[0]]]]) := by
  rw [vanillaHead]
  norm_num [mC3, applyFC4, applyFC, applyLinear_linQ0, List.mapM_cons,
    List.mapM_nil, mapMloop_cons, mapMloop_nil, pure, Except.pure, ebind_ok,
    emap_ok]

theorem vanillaConvFeats_mC3_eval :
    vanillaConvFeats mC3 (.inr [[[[(0 : ℚ)]]]]) = .ok (.inl [[0]]) := by
  have h : mC3.features = some [convL0] := rfl
  rw [show vanillaConvFeats mC3 (.inr [[[[(0 : ℚ)]]]]) =
        (convFeatures [convL0] [[[[(0 : ℚ)]]]]).map .inl from by
      rw [vanillaConvFeats]; rfl]
  norm_num [convFeatures, convNetApply, conv2dApply_convL0_eval, relu3,
    relu2, relu1, relu, flatten3, List.mapM_cons, List.mapM_nil,
    mapMloop_cons, mapMloop_nil, pure, Except.pure, ebind_ok, emap_ok,
    max_self]

theorem vanillaForward_mC3_eval :
    vanillaForward mC3 (.inr [[[[(0 : ℚ)]]]]) = .ok (.inr [[[[0]]]]) := by
  rw [vanillaForward]
  have hu : mC3.useConv = true := rfl
  simp only [hu, if_true, vanillaConvFeats_mC3_eval, ebind_ok,
    vanillaHead_mC3_eval]

/-- A variant of `mC3` with a different (empty) convolutional extractor. -/
def mC3b : VanillaDQN := ⟨[1, 1, 1], 1, true, some [], [linQ0]⟩

theorem vanillaHead_mC3b_eval :
    vanillaHead mC3b (.inr [[[[(0 : ℚ)]]]]) = .ok (.inr [[[[0]]]]) := by
  rw [vanillaHead]
  norm_num [mC3b, applyFC4, applyFC, applyLinear_linQ0, List.mapM_cons,
    List.mapM_nil, mapMloop_cons, mapMloop_nil, pure, Except.pure, ebind_ok,
    emap_ok]

theorem vanillaConvFeats_mC3b_eval :
    vanillaConvFeats mC3b (.inr [[[[(0 : ℚ)]]]]) = .ok (.inl [[0]]) := by
  rw [show vanillaConvFeats mC3b (.inr [[[[(0 : ℚ)]]]]) =
        (convFeatures [] [[[[(0 : ℚ)]]]]).map .inl from by
      rw [vanillaConvFeats]; rfl]
  norm_num [convFeatures, convNetApply, flatten3, List.mapM_cons,
    List.mapM_nil, mapMloop_cons, mapMloop_nil, pure, Except.pure, ebind_ok,
    emap_ok]

theorem vanillaForward_mC3b_eval :
    vanillaForward mC3b (.inr [[[[(0 : ℚ)]]]]) = .ok (.inr [[[[0]]]]) := by
  rw [vanillaForward]
  have hu : mC3b.useConv = true := rfl
  simp only [hu, if_true, vanillaConvFeats_mC3b_eval, ebind_ok,
    vanillaHead_mC3b_eval]

/-- Witness for C3: a concrete convolutional-mode model and input on which
the first part applies, plus a replacement of the extractor under which the
second part yields equal outputs. -/
theorem vanilla_conv_forward_ignores_features_witness :
    (applyFC4 mC3.fc [[[[(0 : ℚ)]]]]).map Sum.inr =
      .ok (Sum.inr [[[[(0 : ℚ)]]]] : DObs) ∧
    (Sum.inr [[[[(0 : ℚ)]]]] : DObs) = (Sum.inr [[[[0]]]] : DObs) :=
  ⟨vanilla_conv_forward_ignores_features.1 mC3 [[[[0]]]] (.inr [[[[0]]]]) rfl
     vanillaForward_mC3_eval,
   vanilla_conv_forward_ignores_features.2 mC3 (some []) [[[[0]]]]
     (.inr [[[[0]]]]) (.inr [[[[0]]]]) rfl vanillaForward_mC3_eval
     vanillaForward_mC3b_eval⟩

/-! ### Claim C4 -/

/-- Non-convolutional `VanillaDQN.__init__` evaluated. -/
theorem vanillaInit_false (d0 : Nat) (dr : List Nat) (o : Nat)
    (src : ParamSrc ℚ) :
    vanillaInit (d0 :: dr) o false src =
      .ok ⟨d0 :: dr, o, false, none,
        [mkLinear src 0 d0 128, mkLinear src 1 128 256,
         mkLinear src 2 256 o]⟩ := rfl

/-- Non-convolutional `DistributionalDQN.__init__` evaluated. -/
theorem distInit_false (d0 : Nat) (dr : List Nat) (o n : Nat) (vmin vmax : ℚ)
    (src : ParamSrc ℚ) :
    distInit (d0 :: dr) o false n vmin vmax src =
      .ok ⟨d0 :: dr, o, n, false, vmin, vmax, (vmax - vmin) / ((n : ℚ) - 1),
        arangeQ vmin (vmax + (vmax - vmin) / ((n : ℚ) - 1))
          ((vmax - vmin) / ((n : ℚ) - 1)), none,
        [mkLinear src 0 d0 128, mkLinear src 1 128 256,
         mkLinear src 2 256 (o * n)]⟩ := rfl

/-- Non-convolutional `RecurrentDQN.__init__` evaluated. -/
theorem recurrentInit_false (d0 : Nat) (dr : List Nat) (g o : Nat)
    (src : ParamSrc ℝ) :
    recurrentInit (d0 :: dr) g o false src =
      .ok ⟨d0 :: dr, g, o, false, none, mkLinear src 0 d0 g,
        ⟨mkLinear src 20 g g, mkLinear src 21 g g, mkLinear src 22 g g,
         mkLinear src 23 g g, mkLinear src 24 g g, mkLinear src 25 g g⟩,
        mkLinear src 1 g o⟩ := rfl

/-- Non-convolutional `DuelingDQN.__init__` evaluated. -/
theorem duelingInit_false (d0 : Nat) (dr : List Nat) (o : Nat)
    (src : ParamSrc ℚ) :
    duelingInit (d0 :: dr) o false src =
      .ok ⟨d0 :: dr, o, false, .lin (mkLinear src 0 d0 128),
        [mkLinear src 1 128 128, mkLinear src 2 128 1],
        [mkLinear src 3 128 128, mkLinear src 4 128 o]⟩ := rfl

/-- Convolutional `DuelingDQN.__init__` evaluated: it succeeds. -/
theorem duelingInit_true (d0 : Nat) (dr : List Nat) (o : Nat)
    (src : ParamSrc ℚ) :
    duelingInit (d0 :: dr) o true src =
      .ok ⟨d0 :: dr, o, true,
        .conv [mkConv src 10 d0 32 8 4, mkConv src 11 32 64 4 2,
               mkConv src 12 64 64 3 1],
        [mkLinear src 1 128 128, mkLinear src 2 128 1],
        [mkLinear src 3 128 128, mkLinear src 4 128 o]⟩ := rfl

theorem applyFC_two_length {l1 l2 : Linear ℚ} {x y : List ℚ}
    (h : applyFC [l1, l2] x = .ok y) :
    y.length = min l2.weight.length l2.bias.length := by
  rw [applyFC] at h
  obtain ⟨y1, _, h2⟩ := bind_ok_inv h
  rw [applyFC] at h2
  exact applyLinear_length h2

theorem broadcastAdd_row_length {v a q : List (List ℚ)}
    (h : broadcastAdd v a = .ok q) :
    ∀ r ∈ q, ∃ ar ∈ a, r.length = ar.length := by
  rw [broadcastAdd] at h
  by_cases hl : v.length = a.length
  · rw [if_pos hl] at h
    intro r hr
    obtain ⟨e, he, hid⟩ := mapM_ok_mem h r hr
    obtain ⟨vr, _, ar, har, rfl⟩ := mem_zipWith he
    refine ⟨ar, har, ?_⟩
    rcases vr with _ | ⟨v0, vtail⟩
    · by_cases h2 : (0 : Nat) = ar.length
      · simp only [List.length_nil, if_pos h2] at hid
        cases hid; simp [← h2]
      · simp only [List.length_nil, if_neg h2] at hid; cases hid
    · rcases vtail with _ | ⟨v1, vtail2⟩
      · simp only [id] at hid; cases hid; simp
      · by_cases h2 : (v0 :: v1 :: vtail2).length = ar.length
        · simp only [if_pos h2] at hid
          cases hid
          simp [← h2]
        · simp only [if_neg h2] at hid; cases hid
  · rw [if_neg hl] at h; cases h

/-- C4: for every constructor configuration that succeeds, the final layer
of the head produces `output_dim` values (`output_dim * n_atoms` for the
distributional head); for the dueling variant, whose head is the pair of
streams combined by broadcasting, every row of the returned Q-values has
`output_dim` entries. -/
theorem head_output_dims :
    (∀ (d0 : Nat) (dr : List Nat) (o : Nat) (src : ParamSrc ℚ)
       (m : VanillaDQN),
       vanillaInit (d0 :: dr) o false src = .ok m →
       m.fc.getLast?.map (fun l => l.bias.length) = some o) ∧
    (∀ (d0 : Nat) (dr : List Nat) (o n : Nat) (vmin vmax : ℚ)
       (src : ParamSrc ℚ) (m : DistributionalDQN),
       distInit (d0 :: dr) o false n vmin vmax src = .ok m →
       m.fc.getLast?.map (fun l => l.bias.length) = some (o * n)) ∧
    (∀ (d0 : Nat) (dr : List Nat) (g o : Nat) (src : ParamSrc ℝ)
       (m : RecurrentDQN),
       recurrentInit (d0 :: dr) g o false src = .ok m →
       m.linear2.bias.length = o) ∧
    (∀ (d0 : Nat) (dr : List Nat) (o : Nat) (useConv : Bool)
       (src : ParamSrc ℚ) (m : DuelingDQN),
       duelingInit (d0 :: dr) o useConv src = .ok m →
       m.advStream.getLast?.map (fun l => l.bias.length) = some o ∧
       ∀ (s : DObs) (q : List (List ℚ)), duelingForward m s = .ok q →
         ∀ r ∈ q, r.length = o) := by
  refine ⟨?_, ?_, ?_, ?_⟩
  · intro d0 dr o src m h
    rw [vanillaInit_false] at h
    cases h
    simp [mkLinear]
  · intro d0 dr o n vmin vmax src m h
    rw [distInit_false] at h
    cases h
    simp [mkLinear]
  · intro d0 dr g o src m h
    rw [recurrentInit_false] at h
    cases h
    simp [mkLinear]
  · intro d0 dr o useConv src m h
    have hadv : m.advStream = [mkLinear src 3 128 128, mkLinear src 4 128 o] := by
      cases useConv with
      | false => rw [duelingInit_false] at h; cases h; rfl
      | true => rw [duelingInit_true] at h; cases h; rfl
    constructor
    · rw [hadv]; simp [mkLinear]
    · intro s q hf
      obtain ⟨feats, v, a, _, _, ha, hba⟩ := duelingForward_decomp m s q hf
      have haLen : ∀ r ∈ a, r.length = o := by
        intro r hr
        obtain ⟨row, _, hrow⟩ := mapM_ok_mem ha r hr
        rw [hadv] at hrow
        rw [applyFC_two_length hrow]
        simp [mkLinear]
      intro r hr
      obtain ⟨ar, har, hlen⟩ := broadcastAdd_row_length hba r hr
      obtain ⟨ar0, har0, rfl⟩ := List.mem_map.mp har
      rw [hlen, List.length_map]
      exact haLen ar0 har0

/-- The non-convolutional all-zero dueling model with `input_dim = [1]` and
one action, as `__init__` builds it. -/
def mDu0 : DuelingDQN :=
  ⟨[1], 1, false, .lin (mkLinear (zeroSrc ℚ) 0 1 128),
   [mkLinear (zeroSrc ℚ) 1 128 128, mkLinear (zeroSrc ℚ) 2 128 1],
   [mkLinear (zeroSrc ℚ) 3 128 128, mkLinear (zeroSrc ℚ) 4 128 1]⟩

theorem duelingFeatures_mDu0_eval :
    duelingFeatures mDu0 (.inl [[(0 : ℚ)]]) = .ok [List.replicate 128 0] := by
  rw [show duelingFeatures mDu0 (.inl [[(0 : ℚ)]]) =
        [[(0 : ℚ)]].mapM (fun row =>
          (applyLinear (mkLinear (zeroSrc ℚ) 0 1 128) row).map relu1) from by
      rw [duelingFeatures] <;> rfl]
  rw [List.mapM_cons,
    applyLinear_zero 0 1 128 (show ([(0 : ℚ)]).length = 1 from rfl)]
  simp only [emap_ok, relu1_replicate_zero, ebind_ok, List.mapM_nil, pure,
    Except.pure]

theorem duelingForward_mDu0_eval :
    duelingForward mDu0 (.inl [[(0 : ℚ)]]) = .ok [[0]] := by
  have hlen : (List.replicate 128 (0 : ℚ)).length = 128 :=
    List.length_replicate 128 0
  have hv : applyFC2 mDu0.valueStream [List.replicate 128 (0 : ℚ)] =
      .ok [[0]] := by
    rw [show applyFC2 mDu0.valueStream [List.replicate 128 (0 : ℚ)] =
          [List.replicate 128 (0 : ℚ)].mapM
            (applyFC [mkLinear (zeroSrc ℚ) 1 128 128,
                      mkLinear (zeroSrc ℚ) 2 128 1]) from rfl]
    rw [List.mapM_cons, applyFC_zero2 128 128 1 1 2 hlen]
    simp [List.mapM_nil, mapMloop_nil, mapMloop_cons, pure, Except.pure,
      ebind_ok, List.replicate_one]
  have hadv : applyFC2 mDu0.advStream [List.replicate 128 (0 : ℚ)] =
      .ok [[0]] := by
    rw [show applyFC2 mDu0.advStream [List.replicate 128 (0 : ℚ)] =
          [List.replicate 128 (0 : ℚ)].mapM
            (applyFC [mkLinear (zeroSrc ℚ) 3 128 128,
                      mkLinear (zeroSrc ℚ) 4 128 1]) from rfl]
    rw [List.mapM_cons, applyFC_zero2 128 128 1 3 4 hlen]
    simp [List.mapM_nil, mapMloop_nil, mapMloop_cons, pure, Except.pure,
      ebind_ok, List.replicate_one]
  rw [duelingForward, duelingFeatures_mDu0_eval, ebind_ok, hv, ebind_ok,
    hadv, ebind_ok]
  norm_num [mean2, broadcastAdd, List.zipWith, List.mapM_cons, List.mapM_nil,
    mapMloop_cons, mapMloop_nil, pure, Except.pure, ebind_ok]

/-- Witness for C4: the four head-dimension conclusions at concrete
all-zero models, and a concrete successful dueling forward pass whose rows
have the declared length. -/
theorem head_output_dims_witness :
    (⟨[1], 1, false, none,
      [mkLinear (zeroSrc ℚ) 0 1 128, mkLinear (zeroSrc ℚ) 1 128 256,
       mkLinear (zeroSrc ℚ) 2 256 1]⟩ : VanillaDQN).fc.getLast?.map
        (fun l => l.bias.length) = some 1 ∧
    (⟨[1], 1, 1, false, none, mkLinear (zeroSrc ℝ) 0 1 1,
      ⟨mkLinear (zeroSrc ℝ) 20 1 1, mkLinear (zeroSrc ℝ) 21 1 1,
       mkLinear (zeroSrc ℝ) 22 1 1, mkLinear (zeroSrc ℝ) 23 1 1,
       mkLinear (zeroSrc ℝ) 24 1 1, mkLinear (zeroSrc ℝ) 25 1 1⟩,
      mkLinear (zeroSrc ℝ) 1 1 1⟩ : RecurrentDQN).linear2.bias.length = 1 ∧
    mDu0.advStream.getLast?.map (fun l => l.bias.length) = some 1 ∧
    ∀ r ∈ ([[(0 : ℚ)]] : List (List ℚ)), r.length = 1 :=
  ⟨head_output_dims.1 1 [] 1 (zeroSrc ℚ) _ (vanillaInit_false 1 [] 1 _),
   head_output_dims.2.2.1 1 [] 1 1 (zeroSrc ℝ) _ (recurrentInit_false 1 [] 1 1 _),
   (head_output_dims.2.2.2 1 [] 1 false (zeroSrc ℚ) mDu0
      (duelingInit_false 1 [] 1 (zeroSrc ℚ))).1,
   (head_output_dims.2.2.2 1 [] 1 false (zeroSrc ℚ) mDu0
      (duelingInit_false 1 [] 1 (zeroSrc ℚ))).2 (.inl [[0]]) [[0]]
      duelingForward_mDu0_eval⟩

/-! ### Claim C7 -/

theorem arangeQ_exact (start step : ℚ) (n : Nat) (h : step ≠ 0) :
    arangeQ start (start + n * step) step =
      (List.range n).map (fun k : Nat => start + (k : ℚ) * step) := by
  have hq : (start + (n : ℚ) * step - start) / step = (n : ℚ) := by
    field_simp
  rw [arangeQ, hq, Int.ceil_natCast, Int.toNat_natCast]

theorem getD_range_map {γ : Type} (f : Nat → γ) (n k : Nat) (d : γ)
    (hk : k < n) : ((List.range n).map f).getD k d = f k := by
  rw [List.getD_eq_getElem?_getD, List.getElem?_map, List.getElem?_range hk]
  rfl

/-- Every successful `DistributionalDQN.forward` call leaves the model
exactly as it was. -/
theorem distForward_frame (m : DistributionalDQN) (state : List (List ℚ))
    (res : List (List (List ℚ)) × List (List ℝ)) (m2 : DistributionalDQN)
    (h : distForward m state = .ok (res, m2)) : m2 = m := by
  rw [distForward] at h
  cases hc : m.useConv with
  | true => rw [hc] at h; simp [ebind_err] at h
  | false =>
      rw [hc] at h
      simp only [Bool.false_eq_true, if_false, ebind_ok] at h
      obtain ⟨fcOut, _, h⟩ := bind_ok_inv h
      obtain ⟨dist, _, h⟩ := bind_ok_inv h
      obtain ⟨qvals, _, h⟩ := bind_ok_inv h
      cases h
      rfl

/-- C7: for `n_atoms ≥ 2` and `Vmin < Vmax`, the support computed at
construction is the ordered grid of exactly `n_atoms` values starting at
`Vmin`, ending at `Vmax`, with constant positive step
`delta_z = (Vmax - Vmin) / (n_atoms - 1)`; and no method of the class ever
modifies it afterwards (`forward` and `get_q_vals` return the model
unchanged). -/
theorem support_grid (d0 : Nat) (dr : List Nat) (o n : Nat) (vmin vmax : ℚ)
    (src : ParamSrc ℚ) (m : DistributionalDQN)
    (hn : 2 ≤ n) (hv : vmin < vmax)
    (hinit : distInit (d0 :: dr) o false n vmin vmax src = .ok m) :
    m.support.length = n ∧
    0 < m.deltaZ ∧
    m.deltaZ = (vmax - vmin) / ((n : ℚ) - 1) ∧
    (∀ k, k < n → m.support.getD k 0 = vmin + k * m.deltaZ) ∧
    m.support.getD 0 0 = vmin ∧
    m.support.getD (n - 1) 0 = vmax ∧
    (∀ k, k + 1 < n →
       m.support.getD (k + 1) 0 - m.support.getD k 0 = m.deltaZ) ∧
    (∀ state res m2, distForward m state = .ok (res, m2) → m2 = m) ∧
    (∀ state res m2, distGetQVals m state = .ok (res, m2) → m2 = m) := by
  rw [distInit_false] at hinit
  cases hinit
  set dz : ℚ := (vmax - vmin) / ((n : ℚ) - 1) with hdz
  have hn1 : (0 : ℚ) < (n : ℚ) - 1 := by
    have : (2 : ℚ) ≤ (n : ℚ) := by exact_mod_cast hn
    linarith
  have hdzpos : 0 < dz := div_pos (sub_pos.mpr hv) hn1
  have hstop : vmax + dz = vmin + (n : ℚ) * dz := by
    have : ((n : ℚ) - 1) * dz = vmax - vmin := by
      rw [hdz]; field_simp
    linarith [this]
  have hsup : arangeQ vmin (vmax + dz) dz =
      (List.range n).map (fun k : Nat => vmin + (k : ℚ) * dz) := by
    rw [hstop]; exact arangeQ_exact vmin dz n (ne_of_gt hdzpos)
  refine ⟨?_, hdzpos, rfl, ?_, ?_, ?_, ?_, ?_, ?_⟩
  · simp [hsup]
  · intro k hk; simp only [hsup]; rw [getD_range_map _ _ _ _ hk]
  · simp only [hsup]
    rw [getD_range_map _ _ _ _ (by omega : 0 < n)]
    norm_num
  · simp only [hsup]
    rw [getD_range_map _ _ _ _ (by omega : n - 1 < n)]
    have hcast : ((n - 1 : ℕ) : ℚ) = (n : ℚ) - 1 := by
      have : (1 : ℕ) ≤ n := by omega
      push_cast [this]
      ring
    rw [hcast, hdz]
    field_simp
  · intro k hk
    simp only [hsup]
    rw [getD_range_map _ _ _ _ hk, getD_range_map _ _ _ _ (by omega : k < n)]
    push_cast
    ring
  · intro state res m2 h; exact distForward_frame _ state res m2 h
  · intro state res m2 h
    obtain ⟨e, he⟩ := distGetQVals_error
      ⟨d0 :: dr, o, n, false, vmin, vmax, dz,
       arangeQ vmin (vmax + dz) dz, none,
       [mkLinear src 0 d0 128, mkLinear src 1 128 256,
        mkLinear src 2 256 (o * n)]⟩ state
    rw [he] at h
    cases h

/-- A placeholder distributional model used only as the default of an
`Option.getD`. -/
def dummyDist : DistributionalDQN := ⟨[], 0, 0, false, 0, 0, 0, [], none, []⟩

/-- The all-zero non-convolutional distributional model with
`input_dim = [1]`, two actions, three atoms, `Vmin = 0`, `Vmax = 1`. -/
def m7 : DistributionalDQN :=
  (distInit [1] 2 false 3 0 1 (zeroSrc ℚ)).toOption.getD dummyDist

/-- Witness for C7 at a concrete construction. -/
theorem support_grid_witness :
    m7.support.length = 3 ∧
    0 < m7.deltaZ ∧
    m7.deltaZ = (1 - 0) / (((3 : ℕ) : ℚ) - 1) ∧
    (∀ k, k < 3 → m7.support.getD k 0 = 0 + k * m7.deltaZ) ∧
    m7.support.getD 0 0 = 0 ∧
    m7.support.getD (3 - 1) 0 = 1 ∧
    (∀ k, k + 1 < 3 →
       m7.support.getD (k + 1) 0 - m7.support.getD k 0 = m7.deltaZ) ∧
    (∀ state res m2, distForward m7 state = .ok (res, m2) → m2 = m7) ∧
    (∀ state res m2, distGetQVals m7 state = .ok (res, m2) → m2 = m7) :=
  support_grid 1 [] 2 3 0 1 (zeroSrc ℚ) m7 (by norm_num) (by norm_num) rfl

/-! ### Claim C9 -/

theorem sum_replicate_q (k : Nat) (c : ℚ) : (List.replicate k c).sum = k * c := by
  rw [List.sum_replicate]; exact nsmul_eq_mul k c

theorem dot_replicate_const (k : Nat) (c : ℚ) (x : List ℚ)
    (hk : x.length = k) : dot (List.replicate k c) x = c * x.sum := by
  rw [dot, zipWith_replicate_left, ← hk, List.take_length]
  rw [show (x.map (fun b => c * b)).sum = (x.map (fun b => c * id b)).sum from rfl]
  rw [List.sum_map_mul_left x id c]
  simp

theorem applyLinear_const (i o : Nat) (c bb : ℚ) (x : List ℚ)
    (hx : x.length = i) :
    applyLinear ⟨i, List.replicate o (List.replicate i c),
                 List.replicate o bb⟩ x =
      .ok (List.replicate o (c * x.sum + bb)) := by
  rw [applyLinear]
  rw [if_pos hx, zipWith_replicate_both, dot_replicate_const i c x hx]

theorem mkLinear_const_eval {src : ParamSrc ℚ} (lid i o : Nat) (c bb : ℚ)
    (hw : ∀ a b2, src.w lid a b2 = c) (hb : ∀ a, src.b lid a = bb) :
    mkLinear src lid i o =
      ⟨i, List.replicate o (List.replicate i c), List.replicate o bb⟩ := by
  simp only [mkLinear, hw, hb, range_map_const]

/-- The parameter source behind the batch-coupling example: the feature
layer (id 0) and both advantage layers (ids 3, 4) have all weights 1, the
value-stream layers all weights 0, and every bias is 0. -/
def src9 : ParamSrc ℚ :=
  ⟨fun l _ _ => if l = 0 ∨ l = 3 ∨ l = 4 then 1 else 0,
   fun _ _ => 0, fun _ _ _ _ _ => 0⟩

/-- The dueling model `DuelingDQN([1], 1, use_conv=False)` with parameters
drawn from `src9`. -/
def m9 : DuelingDQN :=
  ⟨[1], 1, false, .lin (mkLinear src9 0 1 128),
   [mkLinear src9 1 128 128, mkLinear src9 2 128 1],
   [mkLinear src9 3 128 128, mkLinear src9 4 128 1]⟩

theorem m9_layer0 : mkLinear src9 0 1 128 =
    ⟨1, List.replicate 128 (List.replicate 1 1), List.replicate 128 0⟩ :=
  mkLinear_const_eval 0 1 128 1 0 (fun a b2 => by simp [src9]) (fun a => rfl)

theorem m9_layer1 : mkLinear src9 1 128 128 =
    ⟨128, List.replicate 128 (List.replicate 128 0), List.replicate 128 0⟩ :=
  mkLinear_const_eval 1 128 128 0 0 (fun a b2 => by simp [src9]) (fun a => rfl)

theorem m9_layer2 : mkLinear src9 2 128 1 =
    ⟨128, List.replicate 1 (List.replicate 128 0), List.replicate 1 0⟩ :=
  mkLinear_const_eval 2 128 1 0 0 (fun a b2 => by simp [src9]) (fun a => rfl)

theorem m9_layer3 : mkLinear src9 3 128 128 =
    ⟨128, List.replicate 128 (List.replicate 128 1), List.replicate 128 0⟩ :=
  mkLinear_const_eval 3 128 128 1 0 (fun a b2 => by simp [src9]) (fun a => rfl)

theorem m9_layer4 : mkLinear src9 4 128 1 =
    ⟨128, List.replicate 1 (List.replicate 128 1), List.replicate 1 0⟩ :=
  mkLinear_const_eval 4 128 1 1 0 (fun a b2 => by simp [src9]) (fun a => rfl)

theorem m9_value_eval (x : List ℚ) (hx : x.length = 128) :
    applyFC [mkLinear src9 1 128 128, mkLinear src9 2 128 1] x = .ok [0] := by
  rw [m9_layer1, m9_layer2, applyFC, applyLinear_const 128 128 0 0 x hx]
  rw [ebind_ok]
  rw [show relu1 (List.replicate 128 ((0 : ℚ) * x.sum + 0)) =
        List.replicate 128 (relu ((0 : ℚ) * x.sum + 0)) from
    List.map_replicate]
  rw [applyFC,
    applyLinear_const 128 1 0 0 _ (List.length_replicate 128 _)]
  norm_num [relu]

theorem m9_feats_one :
    (applyLinear (mkLinear src9 0 1 128) [(1 : ℚ)]).map relu1 =
      .ok (List.replicate 128 1) := by
  rw [m9_layer0, applyLinear_const 1 128 1 0 [(1 : ℚ)] rfl, emap_ok]
  rw [show relu1 (List.replicate 128 ((1 : ℚ) * [(1 : ℚ)].sum + 0)) =
        List.replicate 128 (relu ((1 : ℚ) * [(1 : ℚ)].sum + 0)) from
    List.map_replicate]
  norm_num [relu]

theorem m9_feats_zero :
    (applyLinear (mkLinear src9 0 1 128) [(0 : ℚ)]).map relu1 =
      .ok (List.replicate 128 0) := by
  rw [m9_layer0, applyLinear_const 1 128 1 0 [(0 : ℚ)] rfl, emap_ok]
  rw [show relu1 (List.replicate 128 ((1 : ℚ) * [(0 : ℚ)].sum + 0)) =
        List.replicate 128 (relu ((1 : ℚ) * [(0 : ℚ)].sum + 0)) from
    List.map_replicate]
  norm_num [relu]

theorem m9_adv_one :
    applyFC [mkLinear src9 3 128 128, mkLinear src9 4 128 1]
      (List.replicate 128 (1 : ℚ)) = .ok [16384] := by
  rw [m9_layer3, m9_layer4, applyFC,
    applyLinear_const 128 128 1 0 _ (List.length_replicate 128 _), ebind_ok]
  rw [show relu1 (List.replicate 128
        ((1 : ℚ) * (List.replicate 128 (1 : ℚ)).sum + 0)) =
      List.replicate 128 (relu ((1 : ℚ) * (List.replicate 128 (1 : ℚ)).sum + 0))
    from List.map_replicate]
  rw [applyFC, applyLinear_const 128 1 1 0 _ (List.length_replicate 128 _)]
  norm_num [relu, sum_replicate_q]

theorem m9_adv_zero :
    applyFC [mkLinear src9 3 128 128, mkLinear src9 4 128 1]
      (List.replicate 128 (0 : ℚ)) = .ok [0] := by
  rw [m9_layer3, m9_layer4, applyFC,
    applyLinear_const 128 128 1 0 _ (List.length_replicate 128 _), ebind_ok]
  rw [show relu1 (List.replicate 128
        ((1 : ℚ) * (List.replicate 128 (0 : ℚ)).sum + 0)) =
      List.replicate 128 (relu ((1 : ℚ) * (List.replicate 128 (0 : ℚ)).sum + 0))
    from List.map_replicate]
  rw [applyFC, applyLinear_const 128 1 1 0 _ (List.length_replicate 128 _)]
  norm_num [relu, sum_replicate_q]

theorem duelingFeatures_m9_batch :
    duelingFeatures m9 (.inl [[(1 : ℚ)], [(0 : ℚ)]]) =
      .ok [List.replicate 128 1, List.replicate 128 0] := by
  rw [show duelingFeatures m9 (.inl [[(1 : ℚ)], [(0 : ℚ)]]) =
        [[(1 : ℚ)], [(0 : ℚ)]].mapM (fun row =>
          (applyLinear (mkLinear src9 0 1 128) row).map relu1) from by
      rw [duelingFeatures] <;> rfl]
  rw [List.mapM_cons, m9_feats_one, ebind_ok, List.mapM_cons, m9_feats_zero]
  simp [List.mapM_nil, mapMloop_nil, pure, Except.pure, ebind_ok]

theorem duelingForward_m9_batch :
    duelingForward m9 (.inl [[(1 : ℚ)], [(0 : ℚ)]]) =
      .ok [[8192], [-8192]] := by
  have hv : applyFC2 m9.valueStream
      [List.replicate 128 (1 : ℚ), List.replicate 128 0] = .ok [[0], [0]] := by
    rw [show applyFC2 m9.valueStream
          [List.replicate 128 (1 : ℚ), List.replicate 128 0] =
        [List.replicate 128 (1 : ℚ), List.replicate 128 0].mapM
          (applyFC [mkLinear src9 1 128 128, mkLinear src9 2 128 1]) from rfl]
    rw [List.mapM_cons, m9_value_eval _ (List.length_replicate 128 _),
      ebind_ok, List.mapM_cons, m9_value_eval _ (List.length_replicate 128 _)]
    simp [List.mapM_nil, mapMloop_nil, pure, Except.pure, ebind_ok]
  have ha : applyFC2 m9.advStream
      [List.replicate 128 (1 : ℚ), List.replicate 128 0] =
      .ok [[16384], [0]] := by
    rw [show applyFC2 m9.advStream
          [List.replicate 128 (1 : ℚ), List.replicate 128 0] =
        [List.replicate 128 (1 : ℚ), List.replicate 128 0].mapM
          (applyFC [mkLinear src9 3 128 128, mkLinear src9 4 128 1]) from rfl]
    rw [List.mapM_cons, m9_adv_one, ebind_ok, List.mapM_cons, m9_adv_zero]
    simp [List.mapM_nil, mapMloop_nil, pure, Except.pure, ebind_ok]
  rw [duelingForward, duelingFeatures_m9_batch, ebind_ok, hv, ebind_ok, ha,
    ebind_ok]
  norm_num [mean2, broadcastAdd, List.zipWith, List.mapM_cons, List.mapM_nil,
    mapMloop_cons, mapMloop_nil, pure, Except.pure, ebind_ok]

theorem duelingFeatures_m9_one :
    duelingFeatures m9 (.inl [[(1 : ℚ)]]) = .ok [List.replicate 128 1] := by
  rw [show duelingFeatures m9 (.inl [[(1 : ℚ)]]) =
        [[(1 : ℚ)]].mapM (fun row =>
          (applyLinear (mkLinear src9 0 1 128) row).map relu1) from by
      rw [duelingFeatures] <;> rfl]
  rw [List.mapM_cons, m9_feats_one]
  simp [List.mapM_nil, mapMloop_nil, pure, Except.pure, ebind_ok]

theorem duelingFeatures_m9_zero :
    duelingFeatures m9 (.inl [[(0 : ℚ)]]) = .ok [List.replicate 128 0] := by
  rw [show duelingFeatures m9 (.inl [[(0 : ℚ)]]) =
        [[(0 : ℚ)]].mapM (fun row =>
          (applyLinear (mkLinear src9 0 1 128) row).map relu1) from by
      rw [duelingFeatures] <;> rfl]
  rw [List.mapM_cons, m9_feats_zero]
  simp [List.mapM_nil, mapMloop_nil, pure, Except.pure, ebind_ok]

theorem duelingForward_m9_one :
    duelingForward m9 (.inl [[(1 : ℚ)]]) = .ok [[0]] := by
  have hv : applyFC2 m9.valueStream [List.replicate 128 (1 : ℚ)] =
      .ok [[0]] := by
    rw [show applyFC2 m9.valueStream [List.replicate 128 (1 : ℚ)] =
        [List.replicate 128 (1 : ℚ)].mapM
          (applyFC [mkLinear src9 1 128 128, mkLinear src9 2 128 1]) from rfl]
    rw [List.mapM_cons, m9_value_eval _ (List.length_replicate 128 _)]
    simp [List.mapM_nil, mapMloop_nil, pure, Except.pure, ebind_ok]
  have ha : applyFC2 m9.advStream [List.replicate 128 (1 : ℚ)] =
      .ok [[16384]] := by
    rw [show applyFC2 m9.advStream [List.replicate 128 (1 : ℚ)] =
        [List.replicate 128 (1 : ℚ)].mapM
          (applyFC [mkLinear src9 3 128 128, mkLinear src9 4 128 1]) from rfl]
    rw [List.mapM_cons, m9_adv_one]
    simp [List.mapM_nil, mapMloop_nil, pure, Except.pure, ebind_ok]
  rw [duelingForward, duelingFeatures_m9_one, ebind_ok, hv, ebind_ok, ha,
    ebind_ok]
  norm_num [mean2, broadcastAdd, List.zipWith, List.mapM_cons, List.mapM_nil,
    mapMloop_cons, mapMloop_nil, pure, Except.pure, ebind_ok]

theorem duelingForward_m9_zero :
    duelingForward m9 (.inl [[(0 : ℚ)]]) = .ok [[0]] := by
  have hv : applyFC2 m9.valueStream [List.replicate 128 (0 : ℚ)] =
      .ok [[0]] := by
    rw [show applyFC2 m9.valueStream [List.replicate 128 (0 : ℚ)] =
        [List.replicate 128 (0 : ℚ)].mapM
          (applyFC [mkLinear src9 1 128 128, mkLinear src9 2 128 1]) from rfl]
    rw [List.mapM_cons, m9_value_eval _ (List.length_replicate 128 _)]
    simp [List.mapM_nil, mapMloop_nil, pure, Except.pure, ebind_ok]
  have ha : applyFC2 m9.advStream [List.replicate 128 (0 : ℚ)] =
      .ok [[0]] := by
    rw [show applyFC2 m9.advStream [List.replicate 128 (0 : ℚ)] =
        [List.replicate 128 (0 : ℚ)].mapM
          (applyFC [mkLinear src9 3 128 128, mkLinear src9 4 128 1]) from rfl]
    rw [List.mapM_cons, m9_adv_zero]
    simp [List.mapM_nil, mapMloop_nil, pure, Except.pure, ebind_ok]
  rw [duelingForward, duelingFeatures_m9_zero, ebind_ok, hv, ebind_ok, ha,
    ebind_ok]
  norm_num [mean2, broadcastAdd, List.zipWith, List.mapM_cons, List.mapM_nil,
    mapMloop_cons, mapMloop_nil, pure, Except.pure, ebind_ok]

/-- C9: the advantage mean in `DuelingDQN.forward` is taken over the whole
advantages tensor (all batch elements jointly), so the Q-values of one batch
element depend on the other elements of the batch: there is a constructed
dueling model and a two-element batch whose forward result differs from the
concatenation of the two singleton-batch forward results. -/
theorem dueling_mean_couples_batch_elements :
    ∃ (m : DuelingDQN) (s1 s2 : List ℚ) (rB r1 r2 : List (List ℚ)),
      (∃ (d : List Nat) (o : Nat) (src : ParamSrc ℚ),
         duelingInit d o false src = .ok m) ∧
      duelingForward m (.inl [s1, s2]) = .ok rB ∧
      duelingForward m (.inl [s1]) = .ok r1 ∧
      duelingForward m (.inl [s2]) = .ok r2 ∧
      rB ≠ r1 ++ r2 := by
  refine ⟨m9, [1], [0], [[8192], [-8192]], [[0]], [[0]],
    ⟨[1], 1, src9, rfl⟩, duelingForward_m9_batch, duelingForward_m9_one,
    duelingForward_m9_zero, ?_⟩
  norm_num

/-! ### Claim C1 -/

theorem chunkGo_mem_length {β : Type} (w : Nat) (hw : w ≠ 0) :
    ∀ (fuel : Nat) (l : List β), w ∣ l.length → l.length ≤ fuel * w →
      ∀ c ∈ chunkGo w fuel l, c.length = w := by
  intro fuel
  induction fuel with
  | zero => intro l _ _ c hc; simp [chunkGo] at hc
  | succ f ih =>
      intro l hdvd hle c hc
      cases l with
      | nil => simp [chunkGo] at hc
      | cons a t =>
          rw [chunkGo] at hc
          rcases List.mem_cons.mp hc with h | h
          · subst h
            rw [List.length_take]
            have hpos : 0 < (a :: t).length := by simp
            have hwle : w ≤ (a :: t).length := Nat.le_of_dvd hpos hdvd
            omega
          · refine ih ((a :: t).drop w) ?_ ?_ c h
            · rw [List.length_drop]; exact Nat.dvd_sub' hdvd dvd_rfl
            · rw [List.length_drop]
              have hmul : (f + 1) * w = f * w + w := by ring
              omega

theorem chunkBy_mem_length {β : Type} (w : Nat) (l : List β) (hw : w ≠ 0)
    (hdvd : w ∣ l.length) : ∀ c ∈ chunkBy w l, c.length = w := by
  rw [chunkBy, if_neg hw]
  exact chunkGo_mem_length w hw l.length l hdvd
    (Nat.le_mul_of_pos_right l.length (Nat.pos_of_ne_zero hw))

theorem chunkBy_ne_nil {β : Type} (w : Nat) (l : List β) (hw : w ≠ 0)
    (hl : l ≠ []) : chunkBy w l ≠ [] := by
  rw [chunkBy, if_neg hw]
  cases l with
  | nil => exact absurd rfl hl
  | cons a t => rw [show (a :: t).length = t.length + 1 from rfl, chunkGo]; simp

theorem getD_zipWith_div :
    ∀ (a b : List ℝ) (z : Nat), z < a.length → z < b.length →
      (List.zipWith (fun x y => x / y) a b).getD z 0 =
        a.getD z 0 / b.getD z 0 := by
  intro a
  induction a with
  | nil => intro b z h _; simp at h
  | cons x t ih =>
      intro b z h1 h2
      cases b with
      | nil => simp at h2
      | cons y u =>
          cases z with
          | zero => simp
          | succ z =>
              simp only [List.zipWith_cons_cons, List.getD_cons_succ]
              exact ih u z (by simpa using h1) (by simpa using h2)

theorem getD_map_lt {f : ℚ → ℝ} (l : List ℚ) (z : Nat) (h : z < l.length)
    (d : ℝ) (d2 : ℚ) : (l.map f).getD z d = f (l.getD z d2) := by
  rw [List.getD_eq_getElem?_getD, List.getElem?_map,
    List.getElem?_eq_getElem h]
  rw [List.getD_eq_getElem l d2 (by simpa using h)]
  rfl

theorem sum_map_div {γ : Type} (l : List γ) (g : γ → ℝ) (c : ℝ) :
    (l.map (fun r => g r / c)).sum = (l.map g).sum / c := by
  simp only [div_eq_mul_inv]
  exact List.sum_map_mul_right l g c⁻¹

/-- Every entry the `dim=1` softmax produces is non-negative. -/
theorem softmaxCols_nonneg (M : List (List ℚ)) :
    ∀ row ∈ softmaxCols M, ∀ p ∈ row, 0 ≤ p := by
  intro row hrow p hp
  simp only [softmaxCols] at hrow
  obtain ⟨erow, he, rfl⟩ := List.mem_map.mp hrow
  obtain ⟨x, hx, c, hc, rfl⟩ := mem_zipWith hp
  obtain ⟨orow, _, rfl⟩ := List.mem_map.mp he
  obtain ⟨v, _, rfl⟩ := List.mem_map.mp hx
  obtain ⟨z, _, rfl⟩ := List.mem_map.mp hc
  refine div_nonneg (le_of_lt (Real.exp_pos _)) ?_
  refine List.sum_nonneg ?_
  intro a ha
  obtain ⟨r, hr, rfl⟩ := List.mem_map.mp ha
  obtain ⟨orow2, _, rfl⟩ := List.mem_map.mp hr
  by_cases hz : z < (orow2.map expQ).length
  · rw [getD_map_lt orow2 z (by simpa using hz) 0 0]
    exact le_of_lt (Real.exp_pos _)
  · rw [List.getD_eq_default _ _ (by omega : (orow2.map _).length ≤ z)]

/-- For a non-empty, rectangular matrix, each column of the `dim=1` softmax
sums to 1. -/
theorem softmaxCols_colsum (M : List (List ℚ)) (Z : Nat)
    (hZ : ∀ r ∈ M, r.length = Z) (hM : M ≠ []) (z : Nat) (hz : z < Z) :
    ((softmaxCols M).map (fun r => r.getD z 0)).sum = 1 := by
  obtain ⟨r0, t, rfl⟩ : ∃ r0 t, M = r0 :: t := by
    cases M with
    | nil => exact absurd rfl hM
    | cons a t => exact ⟨a, t, rfl⟩
  have hw : (r0 :: t).headI.length = Z := hZ r0 (by simp)
  simp only [softmaxCols, hw]
  rw [List.map_map]
  set expM := (r0 :: t).map (fun row => row.map expQ) with hexpM
  have hexpLen : ∀ r ∈ expM, r.length = Z := by
    intro r hr
    obtain ⟨orow, ho, rfl⟩ := List.mem_map.mp hr
    simp [hZ orow ho]
  have hexpPos : ∀ r ∈ expM, 0 < r.getD z 0 := by
    intro r hr
    obtain ⟨orow, ho, rfl⟩ := List.mem_map.mp hr
    have : z < orow.length := by rw [hZ orow ho]; exact hz
    rw [getD_map_lt orow z this 0 0]
    exact Real.exp_pos _
  set C := (expM.map (fun row => row.getD z 0)).sum with hCdef
  have hCpos : 0 < C := by
    rw [hCdef]
    refine List.sum_pos _ ?_ (by simp [hexpM])
    intro a ha
    obtain ⟨r, hr, rfl⟩ := List.mem_map.mp ha
    exact hexpPos r hr
  have hcongr : ∀ r ∈ expM,
      ((fun r => r.getD z 0) ∘ fun row =>
        List.zipWith (fun x y => x / y) row
          ((List.range Z).map (fun z2 =>
            (expM.map (fun row2 => row2.getD z2 0)).sum))) r =
      r.getD z 0 / C := by
    intro r hr
    have h1 : z < r.length := by rw [hexpLen r hr]; exact hz
    have h2 : z < ((List.range Z).map (fun z2 =>
        (expM.map (fun row2 => row2.getD z2 0)).sum)).length := by
      simpa using hz
    simp only [Function.comp]
    rw [getD_zipWith_div _ _ z h1 h2, getD_range_map _ _ _ _ hz, hCdef]
  rw [List.map_congr_left hcongr, sum_map_div expM (fun r => r.getD z 0) C,
    ← hCdef]
  exact div_self (ne_of_gt hCpos)

/-- C1 (amended): a successful `DistributionalDQN.forward` call happens only
with convolution disabled, leaves the model unchanged, and returns the pair
`(dist, Qvals)` in which `dist` is the raw reshaped head output (logits, not
probabilities), while `Qvals` weights the fixed support with the
`softmax(dim=1)` probabilities, which normalise across the action axis: they
are non-negative and, for each batch element and each atom index, sum to 1
over the actions. -/
theorem distributional_forward_amended :
    ∀ (m : DistributionalDQN) (state : List (List ℚ))
      (res : List (List (List ℚ)) × List (List ℝ)) (m2 : DistributionalDQN),
      distForward m state = .ok (res, m2) →
      m.useConv = false ∧ m2 = m ∧ m.nAtoms ≠ 0 ∧
      (∃ fcOut, applyFC2 m.fc state = .ok fcOut ∧
         view3 fcOut m.nAtoms = .ok res.1) ∧
      (∀ M ∈ softmax3dim1 res.1, ∀ row ∈ M, ∀ p ∈ row, 0 ≤ p) ∧
      (∀ M ∈ softmax3dim1 res.1, M ≠ [] ∧
         ∀ z, z < m.nAtoms → ((M.map (fun r => r.getD z 0)).sum) = 1) ∧
      mulSupportSumDim2 (softmax3dim1 res.1) m.support = .ok res.2 := by
  intro m state res m2 h
  rw [distForward] at h
  cases hc : m.useConv with
  | true => rw [hc] at h; simp [ebind_err] at h
  | false =>
      rw [hc] at h
      simp only [Bool.false_eq_true, if_false, ebind_ok] at h
      obtain ⟨fcOut, hfc, h⟩ := bind_ok_inv h
      obtain ⟨dist, hview, h⟩ := bind_ok_inv h
      obtain ⟨qvals, hq, h⟩ := bind_ok_inv h
      cases h
      have hview' := hview
      rw [view3] at hview'
      have hnz : ¬(m.nAtoms = 0 ∨ fcOut = []) := by
        intro hcon
        rw [if_pos hcon] at hview'
        cases hview'
      rw [if_neg hnz] at hview'
      push_neg at hnz
      have hrowfact : ∀ M ∈ dist, ∃ row ∈ fcOut,
          row.length ≠ 0 ∧ row.length % m.nAtoms = 0 ∧
          M = chunkBy m.nAtoms row := by
        intro M hM
        obtain ⟨row, hrmem, hrok⟩ := mapM_ok_mem hview' M hM
        by_cases hcond : row.length ≠ 0 ∧ row.length % m.nAtoms = 0
        · rw [if_pos hcond] at hrok
          cases hrok
          exact ⟨row, hrmem, hcond.1, hcond.2, rfl⟩
        · rw [if_neg hcond] at hrok; cases hrok
      refine ⟨rfl, rfl, hnz.1, ⟨fcOut, hfc, hview⟩, ?_, ?_, hq⟩
      · intro M hM row hrow p hp
        obtain ⟨M0, hM0, rfl⟩ := List.mem_map.mp hM
        exact softmaxCols_nonneg M0 row hrow p hp
      · intro M hM
        obtain ⟨M0, hM0, rfl⟩ := List.mem_map.mp hM
        obtain ⟨row, _, hlen0, hmod, rfl⟩ := hrowfact M0 hM0
        have hdvd : m.nAtoms ∣ row.length := Nat.dvd_of_mod_eq_zero hmod
        have hrows : ∀ r ∈ chunkBy m.nAtoms row, r.length = m.nAtoms :=
          chunkBy_mem_length m.nAtoms row hnz.1 hdvd
        have hne : chunkBy m.nAtoms row ≠ [] :=
          chunkBy_ne_nil m.nAtoms row hnz.1
            (by intro hcon; rw [hcon] at hlen0; exact hlen0 rfl)
        constructor
        · simp only [softmaxCols]
          intro hcon
          rw [List.map_eq_nil] at hcon
          exact hne (List.map_eq_nil.mp hcon)
        · intro z hzlt
          exact softmaxCols_colsum (chunkBy m.nAtoms row) m.nAtoms hrows hne
            z hzlt

/-- The all-zero non-convolutional distributional model with
`input_dim = [1]`, two actions, two atoms, `Vmin = -10`, `Vmax = 10`. -/
def m1 : DistributionalDQN :=
  (distInit [1] 2 false 2 (-10) 10 (zeroSrc ℚ)).toOption.getD dummyDist

theorem m1_useConv : m1.useConv = false := rfl

theorem m1_nAtoms : m1.nAtoms = 2 := rfl

theorem m1_support : m1.support = [-10, 10] := by
  have h : m1.support =
      arangeQ (-10) (10 + (10 - (-10)) / (((2 : ℕ) : ℚ) - 1))
        ((10 - (-10)) / (((2 : ℕ) : ℚ) - 1)) := rfl
  have hcast : (((2 : ℕ) : ℚ) - 1) = 1 := by norm_num
  rw [h, hcast]
  have h20 : ((10 : ℚ) - -10) / 1 = 20 := by norm_num
  rw [h20]
  have h30 : ((10 : ℚ) + 20) = 30 := by norm_num
  rw [h30, arangeQ]
  have hc2 : ((30 : ℚ) - -10) / 20 = ((2 : ℤ) : ℚ) := by norm_num
  rw [hc2, Int.ceil_intCast]
  rw [show ((2 : ℤ)).toNat = 2 from rfl]
  rw [show List.range 2 = [0, 1] from rfl]
  norm_num

theorem applyFC2_m1_eval :
    applyFC2 m1.fc [[(0 : ℚ)]] = .ok [[0, 0, 0, 0]] := by
  rw [show applyFC2 m1.fc [[(0 : ℚ)]] =
      [[(0 : ℚ)]].mapM (applyFC [mkLinear (zeroSrc ℚ) 0 1 128,
        mkLinear (zeroSrc ℚ) 1 128 256,
        mkLinear (zeroSrc ℚ) 2 256 (2 * 2)]) from rfl]
  rw [List.mapM_cons,
    applyFC_zero3 1 128 256 (2 * 2) 0 1 2 (show ([(0 : ℚ)]).length = 1 from rfl)]
  rw [show List.replicate (2 * 2) (0 : ℚ) = [0, 0, 0, 0] from rfl]
  simp [List.mapM_nil, mapMloop_nil, pure, Except.pure, ebind_ok]

theorem softmax3dim1_zeros_eval :
    softmax3dim1 [[[(0 : ℚ), 0], [0, 0]]] = [[[1/2, 1/2], [1/2, 1/2]]] := by
  simp only [softmax3dim1, softmaxCols, List.map, expQ, Rat.cast_zero,
    Real.exp_zero, List.headI, List.length]
  norm_num [List.range_succ, List.getD_cons_zero, List.getD_cons_succ]

theorem mulSupport_m1_eval :
    mulSupportSumDim2 [[[(1 : ℝ)/2, 1/2], [1/2, 1/2]]] m1.support =
      .ok [[0, 0]] := by
  rw [m1_support]
  rw [show mulSupportSumDim2 [[[(1 : ℝ)/2, 1/2], [1/2, 1/2]]] [-10, 10] =
      [[[(1 : ℝ)/2, 1/2], [1/2, 1/2]]].mapM (fun M => M.mapM (fun row =>
        if row.length = ([(-10 : ℚ), 10]).length
        then .ok ((List.zipWith (fun p v => p * (v : ℝ)) row [(-10 : ℚ), 10]).sum)
        else .error .shapeError)) from rfl]
  norm_num [List.mapM_cons, List.mapM_nil, mapMloop_cons, mapMloop_nil,
    pure, Except.pure, ebind_ok, List.zipWith]

set_option maxRecDepth 4000 in
theorem distForward_m1_eval :
    distForward m1 [[0]] = .ok (([[[0, 0], [0, 0]]], [[0, 0]]), m1) := by
  rw [distForward]
  simp only [m1_useConv, Bool.false_eq_true, if_false, ebind_ok]
  rw [applyFC2_m1_eval, ebind_ok]
  rw [show view3 [[(0 : ℚ), 0, 0, 0]] m1.nAtoms =
      .ok [[[0, 0], [0, 0]]] from by rw [m1_nAtoms]; rfl]
  rw [ebind_ok, softmax3dim1_zeros_eval, mulSupport_m1_eval, ebind_ok]

/-- C1 counterexample: on the constructed all-zero model, `forward`'s first
component is the raw logits tensor `[[[0,0],[0,0]]]`, whose atom weights for
batch element 0, action 0 sum to 0, not 1 — it is not a probability
distribution over the atom support. -/
theorem distributional_first_component_not_distribution :
    distInit [1] 2 false 2 (-10) 10 (zeroSrc ℚ) = .ok m1 ∧
    distForward m1 [[0]] = .ok (([[[0, 0], [0, 0]]], [[0, 0]]), m1) ∧
    [[[(0 : ℚ), 0], [0, 0]]].headI.headI.sum ≠ 1 :=
  ⟨rfl, distForward_m1_eval, by norm_num [List.headI]⟩

/-- Witness for C1 (amended) at the constructed all-zero model. -/
theorem distributional_forward_amended_witness :
    m1.useConv = false ∧ m1 = m1 ∧ m1.nAtoms ≠ 0 ∧
    (∃ fcOut, applyFC2 m1.fc [[(0 : ℚ)]] = .ok fcOut ∧
       view3 fcOut m1.nAtoms = .ok [[[(0 : ℚ), 0], [0, 0]]]) ∧
    (∀ M ∈ softmax3dim1 [[[(0 : ℚ), 0], [0, 0]]],
       ∀ row ∈ M, ∀ p ∈ row, 0 ≤ p) ∧
    (∀ M ∈ softmax3dim1 [[[(0 : ℚ), 0], [0, 0]]], M ≠ [] ∧
       ∀ z, z < m1.nAtoms → ((M.map (fun r => r.getD z 0)).sum) = 1) ∧
    mulSupportSumDim2 (softmax3dim1 [[[(0 : ℚ), 0], [0, 0]]]) m1.support =
      .ok [[0, 0]] :=
  distributional_forward_amended m1 [[0]] ([[[0, 0], [0, 0]]], [[0, 0]]) m1
    distForward_m1_eval

/-! ### Claim C6 -/

theorem getD_replicate_or {γ : Type} (n i : Nat) (x d : γ) :
    (List.replicate n x).getD i d = x ∨ (List.replicate n x).getD i d = d := by
  by_cases h : i < n
  · left
    rw [List.getD_eq_getElem _ d (by simpa using h), List.getElem_replicate]
  · right
    exact List.getD_eq_default _ d (by simpa using Nat.le_of_not_lt h)

theorem idx4_zeros (a b c2 d2 o c i j : Nat) :
    idx4 (List.replicate a (List.replicate b (List.replicate c2
      (List.replicate d2 (0 : ℚ))))) o c i j = 0 := by
  rw [idx4]
  rcases getD_replicate_or a o (List.replicate b (List.replicate c2
      (List.replicate d2 (0 : ℚ)))) [] with h1 | h1 <;> rw [h1]
  · rcases getD_replicate_or b c (List.replicate c2
        (List.replicate d2 (0 : ℚ))) [] with h2 | h2 <;> rw [h2]
    · rcases getD_replicate_or c2 i (List.replicate d2 (0 : ℚ)) []
          with h3 | h3 <;> rw [h3]
      · rcases getD_replicate_or d2 j (0 : ℚ) 0 with h4 | h4 <;> rw [h4]
      · rfl
    · rfl
  · rfl

theorem sum_range_zero (n : Nat) :
    ((List.range n).map (fun _ => (0 : ℚ))).sum = 0 := by
  rw [range_map_const, List.sum_replicate, smul_zero]

theorem mkConv_zero (lid c o k s : Nat) :
    mkConv (zeroSrc ℚ) lid c o k s =
      ⟨c, o, k, s,
       List.replicate o (List.replicate c (List.replicate k
         (List.replicate k 0))),
       List.replicate o 0⟩ := by
  simp only [mkConv, zeroSrc, range_map_const]

theorem conv2dApply_zero (lid c o k s : Nat) (img : List (List (List ℚ)))
    (h1 : img.length = c) (h2 : k ≤ img.headI.length)
    (h3 : k ≤ img.headI.headI.length) (h4 : s ≠ 0) :
    conv2dApply (mkConv (zeroSrc ℚ) lid c o k s) img =
      .ok (zeros3 o ((img.headI.length - k) / s + 1)
        ((img.headI.headI.length - k) / s + 1)) := by
  rw [conv2dApply]
  simp only [mkConv_zero]
  rw [if_pos ⟨h1, h2, h3, h4⟩]
  refine congrArg Except.ok ?_
  have houter : ∀ o' ∈ List.range o,
      (List.range ((img.headI.length - k) / s + 1)).map (fun i =>
        (List.range ((img.headI.headI.length - k) / s + 1)).map (fun j =>
          (List.replicate o (0 : ℚ)).getD o' 0 +
            ((List.range c).map (fun c' =>
              ((List.range k).map (fun a =>
                ((List.range k).map (fun b =>
                  idx4 (List.replicate o (List.replicate c (List.replicate k
                    (List.replicate k (0 : ℚ))))) o' c' a b *
                    idx3 img c' (i * s + a) (j * s + b))).sum)).sum)).sum)) =
      List.replicate ((img.headI.length - k) / s + 1)
        (List.replicate ((img.headI.headI.length - k) / s + 1) (0 : ℚ)) := by
    intro o' _
    have hmid : ∀ i ∈ List.range ((img.headI.length - k) / s + 1),
        (List.range ((img.headI.headI.length - k) / s + 1)).map (fun j =>
          (List.replicate o (0 : ℚ)).getD o' 0 +
            ((List.range c).map (fun c' =>
              ((List.range k).map (fun a =>
                ((List.range k).map (fun b =>
                  idx4 (List.replicate o (List.replicate c (List.replicate k
                    (List.replicate k (0 : ℚ))))) o' c' a b *
                    idx3 img c' (i * s + a) (j * s + b))).sum)).sum)).sum) =
        List.replicate ((img.headI.headI.length - k) / s + 1) (0 : ℚ) := by
      intro i _
      have hin : ∀ j ∈ List.range ((img.headI.headI.length - k) / s + 1),
          (List.replicate o (0 : ℚ)).getD o' 0 +
            ((List.range c).map (fun c' =>
              ((List.range k).map (fun a =>
                ((List.range k).map (fun b =>
                  idx4 (List.replicate o (List.replicate c (List.replicate k
                    (List.replicate k (0 : ℚ))))) o' c' a b *
                    idx3 img c' (i * s + a) (j * s + b))).sum)).sum)).sum = 0 := by
        intro j _
        have hterm : ∀ c' ∈ List.range c,
            ((List.range k).map (fun a =>
              ((List.range k).map (fun b =>
                idx4 (List.replicate o (List.replicate c (List.replicate k
                  (List.replicate k (0 : ℚ))))) o' c' a b *
                  idx3 img c' (i * s + a) (j * s + b))).sum)).sum = 0 := by
          intro c' _
          have hina : ∀ a ∈ List.range k,
              ((List.range k).map (fun b =>
                idx4 (List.replicate o (List.replicate c (List.replicate k
                  (List.replicate k (0 : ℚ))))) o' c' a b *
                  idx3 img c' (i * s + a) (j * s + b))).sum = 0 := by
            intro a _
            have hinb : ∀ b ∈ List.range k,
                idx4 (List.replicate o (List.replicate c (List.replicate k
                  (List.replicate k (0 : ℚ))))) o' c' a b *
                  idx3 img c' (i * s + a) (j * s + b) = 0 := by
              intro b _
              rw [idx4_zeros, zero_mul]
            rw [List.map_congr_left hinb, sum_range_zero]
          rw [List.map_congr_left hina, sum_range_zero]
        rw [List.map_congr_left hterm, sum_range_zero]
        rcases getD_replicate_or o o' (0 : ℚ) 0 with h | h <;> rw [h] <;> ring
      rw [List.map_congr_left hin, range_map_const]
    rw [List.map_congr_left hmid, range_map_const]
  rw [List.map_congr_left houter, range_map_const]
  rfl

theorem headI_replicate {γ : Type} [Inhabited γ] (n : Nat) (x : γ)
    (h : n ≠ 0) : (List.replicate n x).headI = x := by
  cases n with
  | zero => exact absurd rfl h
  | succ k => rw [List.replicate_succ]; rfl

theorem relu3_zeros (c h w : Nat) :
    relu3 (zeros3 c h w : List (List (List ℚ))) = zeros3 c h w := by
  simp [relu3, relu2, relu1, zeros3, List.map_replicate, relu]

theorem flatten_replicate_replicate {γ : Type} (c h : Nat) (x : γ) :
    (List.replicate c (List.replicate h x)).flatten =
      List.replicate (c * h) x := by
  induction c with
  | zero => simp
  | succ k ih =>
      rw [List.replicate_succ, List.flatten_cons, ih, ← List.replicate_add]
      congr 1
      ring

theorem flatten3_zeros (c h w : Nat) :
    flatten3 (zeros3 c h w : List (List (List ℚ))) =
      List.replicate (c * h * w) 0 := by
  rw [flatten3, zeros3, flatten_replicate_replicate,
    flatten_replicate_replicate]

/-- The all-zero convolutional feature stack built by `conv_layer` for a
one-channel input. -/
def convNet0 : List (ConvLayer ℚ) :=
  [mkConv (zeroSrc ℚ) 10 1 32 8 4, mkConv (zeroSrc ℚ) 11 32 64 4 2,
   mkConv (zeroSrc ℚ) 12 64 64 3 1]

theorem convNet0_eval_44 :
    convNetApply convNet0 [List.replicate 36 (List.replicate 44 (0 : ℚ))] =
      .ok (zeros3 64 1 2) := by
  have e1 : conv2dApply (mkConv (zeroSrc ℚ) 10 1 32 8 4)
      [List.replicate 36 (List.replicate 44 (0 : ℚ))] =
      .ok (zeros3 32 8 10) :=
    conv2dApply_zero 10 1 32 8 4 _ rfl (by decide) (by decide) (by decide)
  have e2 : conv2dApply (mkConv (zeroSrc ℚ) 11 32 64 4 2)
      (zeros3 32 8 10) = .ok (zeros3 64 3 4) :=
    conv2dApply_zero 11 32 64 4 2 _ rfl (by decide) (by decide) (by decide)
  have e3 : conv2dApply (mkConv (zeroSrc ℚ) 12 64 64 3 1)
      (zeros3 64 3 4) = .ok (zeros3 64 1 2) :=
    conv2dApply_zero 12 64 64 3 1 _ rfl (by decide) (by decide) (by decide)
  rw [convNet0, convNetApply, e1, ebind_ok, relu3_zeros, convNetApply, e2,
    ebind_ok, relu3_zeros, convNetApply, e3, ebind_ok, relu3_zeros,
    convNetApply]

theorem convNet0_eval_36 :
    convNetApply convNet0 [List.replicate 36 (List.replicate 36 (0 : ℚ))] =
      .ok (zeros3 64 1 1) := by
  have e1 : conv2dApply (mkConv (zeroSrc ℚ) 10 1 32 8 4)
      [List.replicate 36 (List.replicate 36 (0 : ℚ))] =
      .ok (zeros3 32 8 8) :=
    conv2dApply_zero 10 1 32 8 4 _ rfl (by decide) (by decide) (by decide)
  have e2 : conv2dApply (mkConv (zeroSrc ℚ) 11 32 64 4 2)
      (zeros3 32 8 8) = .ok (zeros3 64 3 3) :=
    conv2dApply_zero 11 32 64 4 2 _ rfl (by decide) (by decide) (by decide)
  have e3 : conv2dApply (mkConv (zeroSrc ℚ) 12 64 64 3 1)
      (zeros3 64 3 3) = .ok (zeros3 64 1 1) :=
    conv2dApply_zero 12 64 64 3 1 _ rfl (by decide) (by decide) (by decide)
  rw [convNet0, convNetApply, e1, ebind_ok, relu3_zeros, convNetApply, e2,
    ebind_ok, relu3_zeros, convNetApply, e3, ebind_ok, relu3_zeros,
    convNetApply]

/-- A `1 × 36 × 44` all-zero batched image (one batch element). -/
def img6 : List (List (List (List ℚ))) :=
  [[List.replicate 36 (List.replicate 44 0)]]

/-- A `1 × 36 × 36` all-zero batched image (one batch element). -/
def img6b : List (List (List (List ℚ))) :=
  [[List.replicate 36 (List.replicate 36 0)]]

theorem convFeatures_44 :
    convFeatures convNet0 img6 = .ok [List.replicate 128 0] := by
  rw [show convFeatures convNet0 img6 =
      [[List.replicate 36 (List.replicate 44 (0 : ℚ))]].mapM
        (fun img => (convNetApply convNet0 img).map flatten3) from rfl]
  rw [List.mapM_cons, convNet0_eval_44, emap_ok]
  rw [show flatten3 (zeros3 64 1 2 : List (List (List ℚ))) =
      List.replicate 128 (0 : ℚ) from by rw [flatten3_zeros]]
  simp [List.mapM_nil, mapMloop_nil, pure, Except.pure, ebind_ok]

theorem convFeatures_36 :
    convFeatures convNet0 img6b = .ok [List.replicate 64 0] := by
  rw [show convFeatures convNet0 img6b =
      [[List.replicate 36 (List.replicate 36 (0 : ℚ))]].mapM
        (fun img => (convNetApply convNet0 img).map flatten3) from rfl]
  rw [List.mapM_cons, convNet0_eval_36, emap_ok]
  rw [show flatten3 (zeros3 64 1 1 : List (List (List ℚ))) =
      List.replicate 64 (0 : ℚ) from by rw [flatten3_zeros]]
  simp [List.mapM_nil, mapMloop_nil, pure, Except.pure, ebind_ok]

/-- The convolutional all-zero dueling model with `input_dim = [1, 36, 44]`
and four actions, as `__init__` builds it. -/
def m6 : DuelingDQN :=
  ⟨[1, 36, 44], 4, true, .conv convNet0,
   [mkLinear (zeroSrc ℚ) 1 128 128, mkLinear (zeroSrc ℚ) 2 128 1],
   [mkLinear (zeroSrc ℚ) 3 128 128, mkLinear (zeroSrc ℚ) 4 128 4]⟩

/-- Like `m6` but with `input_dim = [1, 36, 36]`, whose flattened
convolutional features have 64 entries rather than 128. -/
def m6b : DuelingDQN :=
  ⟨[1, 36, 36], 4, true, .conv convNet0,
   [mkLinear (zeroSrc ℚ) 1 128 128, mkLinear (zeroSrc ℚ) 2 128 1],
   [mkLinear (zeroSrc ℚ) 3 128 128, mkLinear (zeroSrc ℚ) 4 128 4]⟩

theorem duelingFeatures_m6_eval :
    duelingFeatures m6 (.inr img6) = .ok [List.replicate 128 0] := by
  rw [show duelingFeatures m6 (.inr img6) = convFeatures convNet0 img6 from by
    rw [duelingFeatures] <;> rfl]
  exact convFeatures_44

theorem duelingFeatures_m6b_eval :
    duelingFeatures m6b (.inr img6b) = .ok [List.replicate 64 0] := by
  rw [show duelingFeatures m6b (.inr img6b) = convFeatures convNet0 img6b from by
    rw [duelingFeatures] <;> rfl]
  exact convFeatures_36

theorem duelingForward_m6_eval :
    duelingForward m6 (.inr img6) = .ok [[0, 0, 0, 0]] := by
  have hlen : (List.replicate 128 (0 : ℚ)).length = 128 :=
    List.length_replicate 128 0
  have hv : applyFC2 m6.valueStream [List.replicate 128 (0 : ℚ)] =
      .ok [[0]] := by
    rw [show applyFC2 m6.valueStream [List.replicate 128 (0 : ℚ)] =
          [List.replicate 128 (0 : ℚ)].mapM
            (applyFC [mkLinear (zeroSrc ℚ) 1 128 128,
                      mkLinear (zeroSrc ℚ) 2 128 1]) from rfl]
    rw [List.mapM_cons, applyFC_zero2 128 128 1 1 2 hlen]
    simp [List.mapM_nil, mapMloop_nil, pure, Except.pure, ebind_ok,
      List.replicate_one]
  have hadv : applyFC2 m6.advStream [List.replicate 128 (0 : ℚ)] =
      .ok [[0, 0, 0, 0]] := by
    rw [show applyFC2 m6.advStream [List.replicate 128 (0 : ℚ)] =
          [List.replicate 128 (0 : ℚ)].mapM
            (applyFC [mkLinear (zeroSrc ℚ) 3 128 128,
                      mkLinear (zeroSrc ℚ) 4 128 4]) from rfl]
    rw [List.mapM_cons, applyFC_zero2 128 128 4 3 4 hlen]
    rw [show List.replicate 4 (0 : ℚ) = [0, 0, 0, 0] from rfl]
    simp [List.mapM_nil, mapMloop_nil, pure, Except.pure, ebind_ok]
  rw [duelingForward, duelingFeatures_m6_eval, ebind_ok, hv, ebind_ok, hadv,
    ebind_ok]
  norm_num [mean2, broadcastAdd, List.zipWith, List.mapM_cons, List.mapM_nil,
    mapMloop_cons, mapMloop_nil, pure, Except.pure, ebind_ok]

/-- C6 counterexample: a complete convolutional-mode use of `DuelingDQN`
succeeds — construction with `use_conv=True` returns an instance, and for a
`1 × 36 × 44` input the flattened convolutional features happen to have
exactly the 128 entries the streams expect, so `forward` returns Q-values.
Convolutional mode is therefore not unusable, and `feature_size` (which
declares its `input_dim` parameter and is never called) plays no role. -/
theorem dueling_conv_mode_use_succeeds :
    duelingInit [1, 36, 44] 4 true (zeroSrc ℚ) = .ok m6 ∧
    duelingForward m6 (.inr img6) = .ok [[0, 0, 0, 0]] :=
  ⟨rfl, duelingForward_m6_eval⟩

/-- C6 (amended): `DuelingDQN.feature_size` does declare its `input_dim`
parameter (its body would raise `NameError` on the unimported `autograd` if
it were ever called, but no code calls it); convolutional-mode construction
always succeeds; and what actually breaks convolutional mode is a shape
mismatch in `forward` — whenever the flattened convolutional features of a
batch element do not have the 128 entries the value stream expects, the
forward pass fails with a shape error. -/
theorem dueling_conv_mode_amended :
    (∀ dIn : List Nat,
       duelingFeatureSize dIn = .error (.nameError "name autograd is not defined")) ∧
    (∀ (d0 : Nat) (dr : List Nat) (o : Nat) (src : ParamSrc ℚ),
       ∃ m, duelingInit (d0 :: dr) o true src = .ok m) ∧
    (∀ (d0 : Nat) (dr : List Nat) (o : Nat) (src : ParamSrc ℚ)
       (m : DuelingDQN) (img : List (List (List (List ℚ))))
       (r : List ℚ) (rs : List (List ℚ)),
       duelingInit (d0 :: dr) o true src = .ok m →
       duelingFeatures m (.inr img) = .ok (r :: rs) →
       r.length ≠ 128 →
       duelingForward m (.inr img) = .error .shapeError) := by
  refine ⟨fun _ => rfl, fun d0 dr o src => ⟨_, rfl⟩, ?_⟩
  intro d0 dr o src m img r rs hinit hfeats hlen
  rw [duelingInit_true] at hinit
  cases hinit
  rw [duelingForward, hfeats, ebind_ok]
  have hv : applyFC2 [mkLinear src 1 128 128, mkLinear src 2 128 1]
      (r :: rs) = .error .shapeError := by
    rw [show applyFC2 [mkLinear src 1 128 128, mkLinear src 2 128 1]
          (r :: rs) =
        (r :: rs).mapM (applyFC [mkLinear src 1 128 128,
          mkLinear src 2 128 1]) from rfl]
    rw [List.mapM_cons]
    have hfail : applyFC [mkLinear src 1 128 128, mkLinear src 2 128 1] r =
        .error .shapeError := by
      rw [applyFC]
      rw [show applyLinear (mkLinear src 1 128 128) r = .error .shapeError
          from by
        rw [applyLinear, if_neg]
        intro hcon
        exact hlen (by simpa [mkLinear] using hcon)]
      rw [ebind_err]
    rw [hfail, ebind_err]
  rw [hv, ebind_err]

/-- Witness for C6 (amended): the `feature_size` and construction parts at
concrete arguments, and a concrete convolutional-mode forward pass
(`input_dim = [1, 36, 36]`, flattened features of length 64 ≠ 128) failing
with a shape error. -/
theorem dueling_conv_mode_amended_witness :
    duelingFeatureSize [1] = .error (.nameError "name autograd is not defined") ∧
    (∃ m, duelingInit [1, 36, 36] 4 true (zeroSrc ℚ) = .ok m) ∧
    duelingForward m6b (.inr img6b) = .error .shapeError :=
  ⟨dueling_conv_mode_amended.1 [1],
   dueling_conv_mode_amended.2.1 1 [36, 36] 4 (zeroSrc ℚ),
   dueling_conv_mode_amended.2.2 1 [36, 36] 4 (zeroSrc ℚ) m6b img6b
     (List.replicate 64 0) [] rfl duelingFeatures_m6b_eval (by decide)⟩

end DQN
